import Mathlib

/-!
Verification of the Azul game-server core (the `Azul` class of the
repository's server source).  The definitions below are a shallow
embedding of the TypeScript code: JavaScript arrays become `List`s,
in-place mutation becomes explicit state passing, and `throw` becomes
an `Except` error carrying the state as it stood at the moment of the
throw (the TypeScript mutates `this.state` in place, so a throw after a
mutation leaves the caller observing the mutated state; the carried
state models exactly that).
-/

deriving instance DecidableEq for Except

namespace Azul

/-- The five tile colors (`TILE_COLOR` in the source). -/
inductive Color
  | BLACK
  | AQUA
  | BLUE
  | YELLOW
  | RED
deriving DecidableEq, Inhabited, Fintype

open Color

/-- `Azul.wallOrdering`: the fixed 5×5 color layout of every wall. -/
def wallOrdering : List (List Color) :=
  [[BLUE, YELLOW, RED, BLACK, AQUA],
   [AQUA, BLUE, YELLOW, RED, BLACK],
   [BLACK, AQUA, BLUE, YELLOW, RED],
   [RED, BLACK, AQUA, BLUE, YELLOW],
   [YELLOW, RED, BLACK, AQUA, BLUE]]

/-- `Azul.patternLineSize`: line `i` holds `i + 1` tiles. -/
def patternLineSize (lineIndex : Nat) : Nat := lineIndex + 1

/-- `AzulGameState` from the source (arrays as lists). -/
structure GameState where
  currentPlayerIndex : Nat
  numberOfPlayers : Nat
  startingPlayer : Nat
  bag : List Color
  center : List Color
  factories : List (List Color)
  patternLines : List (List (List Color))
  walls : List (List (List Bool))
  floorLines : List (List Color)
  discardPile : List Color
deriving DecidableEq, Inhabited

/-- The distinct `throw new Error(...)` sites of the core, one constructor
per error message kind. -/
inductive AzulError
  | MalformedToken
  | InvalidSource
  | InvalidColor
  | InvalidLine
  | ColorNotInPile
  | LineColorConflict
  | WallAlreadyHasColor
  | RepopulateNotEmpty
  | InvalidPlayerCount
  | GameEndingNotImplemented
deriving DecidableEq, Inhabited

/-- `GrabPlaceMove` from the source; the source field `from` is a Lean
keyword and is rendered `fromPile`. -/
structure GrabPlaceMove where
  fromPile : Nat
  color : Color
  toLine : Nat
deriving DecidableEq

/-- The line of player `p` at index `i` (out-of-range reads give `[]`,
as the only out-of-range accesses the embedded operations perform are
ones the checks rule out before any use). -/
def getLine (s : GameState) (p i : Nat) : List Color :=
  (s.patternLines.getD p []).getD i []

/-- Wall row `i` of player `p`. -/
def getWallRow (s : GameState) (p i : Nat) : List Bool :=
  (s.walls.getD p []).getD i []

/-- The column scan of `encureCanPlaceOnPatternLine`: does the wall row
hold `true` at some column whose `wallOrdering` color is `color`? -/
def wallRowHasColor (ordRow : List Color) (row : List Bool) (color : Color) : Bool :=
  (ordRow.zip row).any (fun pr => pr.2 && decide (pr.1 = color))

/-- `Azul.allPilesAreEmpty`. -/
def allPilesAreEmpty (s : GameState) : Bool :=
  s.center.isEmpty && s.factories.all (fun f => f.isEmpty)

/-- `Azul.numFreeSpacesOnPatternLine` (an `Int`: JavaScript arithmetic
can go negative, and `if (n)` is false only at `0`). -/
def numFreeSpacesOnPatternLine (s : GameState) (lineIndex : Nat) : Int :=
  (patternLineSize lineIndex : Int)
    - ((getLine s s.currentPlayerIndex lineIndex).length : Int)

/-- `Azul.encureCanPlaceOnPatternLine` (name kept as in the source):
`some e` models the corresponding `throw`. -/
def encureCanPlaceOnPatternLine (s : GameState) (lineIndex : Nat) (color : Color) :
    Option AzulError :=
  let playerIndex := s.currentPlayerIndex
  let lineSize : Int := (patternLineSize lineIndex : Int)
  let line := getLine s playerIndex lineIndex
  let numFreeSpaces : Int := lineSize - (line.length : Int)
  let lineIsEmpty : Prop := lineSize = numFreeSpaces
  if ¬ lineIsEmpty ∧ color ∉ line then some .LineColorConflict
  else if wallRowHasColor (wallOrdering.getD lineIndex []) (getWallRow s playerIndex lineIndex) color
  then some .WallAlreadyHasColor
  else none

/-- One `push` onto the current player's chosen pattern line. -/
def setLine (s : GameState) (p i : Nat) (l : List Color) : GameState :=
  { s with patternLines := s.patternLines.set p ((s.patternLines.getD p []).set i l) }

/-- One `push` onto a player's floor line. -/
def pushToFloor (s : GameState) (p : Nat) (t : Color) : GameState :=
  { s with floorLines := s.floorLines.set p ((s.floorLines.getD p []) ++ [t]) }

/-- The placement loop of `pickTiles`: each picked tile goes to the
pattern line while `numFreeSpacesOnPatternLine` is nonzero, else to the
floor line (`cpi` is captured before the loop in the source; the loop
never changes `currentPlayerIndex`, so reads agree). -/
def placeTiles : GameState → Nat → Nat → List Color → GameState
  | s, _, _, [] => s
  | s, cpi, lineIndex, t :: ts =>
    let s2 :=
      if numFreeSpacesOnPatternLine s lineIndex ≠ 0 then
        setLine s cpi lineIndex (getLine s cpi lineIndex ++ [t])
      else
        pushToFloor s cpi t
    placeTiles s2 cpi lineIndex ts

/-- The source pile of a move: the center for source 0, else the
factory at `pileIndex - 1` (an out-of-range factory reads as `[]`, on
which `ColorNotInPile` necessarily fires first, as in the JavaScript
where `_.includes(undefined, color)` is false). -/
def pileOf (s : GameState) (pileIndex : Nat) : List Color :=
  if pileIndex = 0 then s.center else s.factories.getD (pileIndex - 1) []

/-- `pickedTiles`: the tiles of the chosen color, in pile order. -/
def pickedOf (s : GameState) (pileIndex : Nat) (color : Color) : List Color :=
  (pileOf s pileIndex).filter (fun t => decide (t = color))

/-- `pileAfterPick`: the non-picked remainder, in pile order. -/
def remainderOf (s : GameState) (pileIndex : Nat) (color : Color) : List Color :=
  (pileOf s pileIndex).filter (fun t => decide (¬ t = color))

/-- The draft part of `pickTiles`: partition the source pile, place the
picked tiles, and update the piles — everything of `pickTiles` between
the legality checks and the end-of-turn transition. -/
def afterDraft (s : GameState) (pileIndex lineIndex : Nat) (color : Color) : GameState :=
  let s1 := placeTiles s s.currentPlayerIndex lineIndex (pickedOf s pileIndex color)
  if pileIndex = 0 then { s1 with center := remainderOf s pileIndex color }
  else { s1 with factories := s1.factories.set (pileIndex - 1) [],
                 center := s1.center ++ remainderOf s pileIndex color }

/-- The inner `forEach` of `moveTilesToWall` setting the wall cell: set
every column of the row whose ordering color equals the popped tile. -/
def setTrueWhere : List Color → Color → List Bool → List Bool
  | [], _, row => row
  | _ :: _, _, [] => []
  | c :: cs, t, b :: bs => (if c = t then true else b) :: setTrueWhere cs t bs

/-- The per-player loop body of `moveTilesToWall`, walking the five
pattern lines and the five wall rows in lockstep from line index `i`:
a complete line pops its last tile onto the wall, the remaining tiles
go to the discard pile, and the line is cleared; incomplete lines are
untouched. -/
def processLines : Nat → List (List Color) → List (List Bool) → List Color →
    (List (List Color) × List (List Bool) × List Color)
  | _, [], wall, discard => ([], wall, discard)
  | _, line :: rest, [], discard => (line :: rest, [], discard)
  | i, line :: rest, wrow :: wrest, discard =>
    if h : line.length = patternLineSize i then
      let oneTile := line.getLast (fun hnil => by
        rw [hnil] at h; simp [patternLineSize] at h)
      let wrow2 := setTrueWhere (wallOrdering.getD i []) oneTile wrow
      let out := processLines (i + 1) rest wrest (discard ++ line.dropLast)
      ([] :: out.1, wrow2 :: out.2.1, out.2.2)
    else
      let out := processLines (i + 1) rest wrest discard
      (line :: out.1, wrow :: out.2.1, out.2.2)

/-- The outer player loop of `moveTilesToWall`, running once per player
(`playerIndex < numberOfPlayers` in the source; the per-player lists are
consumed in lockstep). -/
def processPlayers : Nat → List (List (List Color)) → List (List (List Bool)) → List Color →
    (List (List (List Color)) × List (List (List Bool)) × List Color)
  | 0, pls, ws, d => (pls, ws, d)
  | _ + 1, [], ws, d => ([], ws, d)
  | _ + 1, pls, [], d => (pls, [], d)
  | n + 1, pl :: pls, w :: ws, d =>
    let one := processLines 0 pl w d
    let rest := processPlayers n pls ws one.2.2
    (one.1 :: rest.1, one.2.1 :: rest.2.1, rest.2.2)

/-- `Azul.moveTilesToWall`. -/
def moveTilesToWall (s : GameState) : GameState :=
  let out := processPlayers s.numberOfPlayers s.patternLines s.walls s.discardPile
  { s with patternLines := out.1, walls := out.2.1, discardPile := out.2.2 }

/-- `Azul.shouldEnd`: some player's wall has a row with every cell true. -/
def shouldEnd (s : GameState) : Bool :=
  s.walls.any (fun wall => wall.any (fun row => row.all (fun b => b)))

/-- The `takeNFromBag`/`_.times` dealing loop of `repopulateFactories`:
`k` factories, each taking (up to) 4 tiles off the front of the bag. -/
def takeChunks : List Color → Nat → (List (List Color) × List Color)
  | bag, 0 => ([], bag)
  | bag, k + 1 =>
    let f := bag.take 4
    let out := takeChunks (bag.drop 4) k
    (f :: out.1, out.2)

/-- `Azul.repopulateFactories`.  Note that the source performs no bag
exhaustion check at all: `bag.splice(0, 4)` on a short bag silently
returns fewer than 4 tiles, so short or empty factories are dealt. -/
def repopulateFactories (s : GameState) : Except (AzulError × GameState) GameState :=
  if ¬ allPilesAreEmpty s then .error (.RepopulateNotEmpty, s)
  else if s.numberOfPlayers = 2 then
    let out := takeChunks s.bag 5
    .ok { s with factories := out.1, bag := out.2 }
  else if s.numberOfPlayers = 3 then
    let out := takeChunks s.bag 7
    .ok { s with factories := out.1, bag := out.2 }
  else if s.numberOfPlayers = 4 then
    let out := takeChunks s.bag 9
    .ok { s with factories := out.1, bag := out.2 }
  else .error (.InvalidPlayerCount, s)

/-- `Azul.pickTiles`.  Errors carry the state as of the throw. -/
def pickTiles (s : GameState) (pileIndex lineIndex : Nat) (color : Color) :
    Except (AzulError × GameState) GameState :=
  if color ∉ pileOf s pileIndex then .error (.ColorNotInPile, s)
  else
    match encureCanPlaceOnPatternLine s lineIndex color with
    | some e => .error (e, s)
    | none =>
      let s2 := afterDraft s pileIndex lineIndex color
      if allPilesAreEmpty s2 then
        let s3 := moveTilesToWall s2
        if shouldEnd s3 then .error (.GameEndingNotImplemented, s3)
        else
          match repopulateFactories s3 with
          | .error es => .error es
          | .ok s4 => .ok { s4 with currentPlayerIndex := s4.startingPlayer }
      else .ok { s2 with currentPlayerIndex := (s2.currentPlayerIndex + 1) % s2.numberOfPlayers }

/-- JavaScript `str.split(sep)` on a single-character separator, at the
character-list level (`''.split('_')` gives `['']`, matching this). -/
def splitOnChar (sep : Char) : List Char → List (List Char)
  | [] => [[]]
  | c :: cs =>
    let rest := splitOnChar sep cs
    if c = sep then [] :: rest
    else
      match rest with
      | [] => [[c]]
      | r :: rs => (c :: r) :: rs

/-- Model of JavaScript `Number.parseInt(str, 10)`: skip leading
whitespace, an optional sign, then the longest digit run; `none` is
`NaN` (no digits). Trailing characters are ignored. -/
def parseInt10 (cs0 : List Char) : Option Int :=
  let cs := cs0.dropWhile (fun ch => ch = ' ' ∨ ch = '\t' ∨ ch = '\n' ∨ ch = '\r')
  let core : List Char → Option Nat := fun l =>
    let ds := l.takeWhile (fun ch => ch.isDigit)
    if ds.isEmpty then none
    else some (ds.foldl (fun acc ch => acc * 10 + (ch.toNat - 48)) 0)
  match cs with
  | '-' :: rest => (core rest).map (fun n => -(n : Int))
  | '+' :: rest => (core rest).map (fun n => (n : Int))
  | _ => (core cs).map (fun n => (n : Int))

/-- The color-name table `[BLACK, AQUA, BLUE, YELLOW, RED].includes(color)`
applied to the upper-cased `COLOR` field. -/
def colorOfChars (cs : List Char) : Option Color :=
  if cs = "BLACK".data then some BLACK
  else if cs = "AQUA".data then some AQUA
  else if cs = "BLUE".data then some BLUE
  else if cs = "YELLOW".data then some YELLOW
  else if cs = "RED".data then some RED
  else none

/-- `Azul.parseMove`: exactly two underscores, then `SOURCE` an integer
in `[0, 9]` (`_.range(0, 10)`, with a source-code todo noting it should
depend on the number of players), `COLOR` a case-insensitive color name,
`LINE` an integer in `[0, 4]`. -/
def parseMove (move : String) : Except AzulError GrabPlaceMove :=
  let underscoresCount := move.data.count '_'
  if underscoresCount ≠ 2 then .error .MalformedToken
  else
    let parts := splitOnChar '_' move.data
    let fromStr := parts.getD 0 []
    let colorStr := (parts.getD 1 []).map Char.toUpper
    let toLineStr := parts.getD 2 []
    match parseInt10 fromStr with
    | none => .error .InvalidSource
    | some fromN =>
      if fromN < 0 ∨ 9 < fromN then .error .InvalidSource
      else
        match colorOfChars colorStr with
        | none => .error .InvalidColor
        | some color =>
          match parseInt10 toLineStr with
          | none => .error .InvalidLine
          | some toLineN =>
            if toLineN < 0 ∨ 4 < toLineN then .error .InvalidLine
            else .ok { fromPile := fromN.toNat, color := color, toLine := toLineN.toNat }

/-- `Azul.do` (`do` is a Lean keyword): parse the token, then run
`pickTiles`.  A parse error leaves the state untouched. -/
def doMove (s : GameState) (action : String) : Except (AzulError × GameState) GameState :=
  match parseMove action with
  | .error e => .error (e, s)
  | .ok m => pickTiles s m.fromPile m.toLine m.color

/-- `Azul.newBoard`, with the shuffled bag abstracted into a parameter
(`newShuffledBag` returns some permutation of 20 tiles of each color;
reachability quantifies over all such bags). -/
def newBoard (bag : List Color) (numberOfPlayers : Nat) : GameState :=
  { currentPlayerIndex := 0
    numberOfPlayers := numberOfPlayers
    startingPlayer := 0
    bag := bag
    center := []
    factories := []
    patternLines := List.replicate numberOfPlayers (List.replicate 5 [])
    walls := List.replicate numberOfPlayers (List.replicate 5 (List.replicate 5 false))
    floorLines := List.replicate numberOfPlayers []
    discardPile := [] }

/-- `Azul.createFromNumPlayers`: a fresh board with its factories dealt. -/
def createMatch (bag : List Color) (numberOfPlayers : Nat) :
    Except (AzulError × GameState) GameState :=
  repopulateFactories (newBoard bag numberOfPlayers)

/-- One unshuffled bag: 20 copies of each color (`newShuffledBag` before
the shuffle). -/
def orderedBag : List Color :=
  (List.replicate 20 [BLACK, AQUA, BLUE, YELLOW, RED]).flatten

/-- Total tiles of color `c` in a list of piles. -/
def sumCounts (c : Color) (ls : List (List Color)) : Nat :=
  (ls.map (fun l => l.count c)).sum

/-- Tiles of color `c` sitting on one wall row, given the ordering row
fixing each cell's color. -/
def wallRowCount (c : Color) : List Color → List Bool → Nat
  | [], _ => 0
  | _ :: _, [] => 0
  | o :: os, b :: bs => (if o = c ∧ b = true then 1 else 0) + wallRowCount c os bs

/-- Tiles of color `c` on the wall rows starting at row index `i`. -/
def wallCountFrom (c : Color) : Nat → List (List Bool) → Nat
  | _, [] => 0
  | i, r :: rs => wallRowCount c (wallOrdering.getD i []) r + wallCountFrom c (i + 1) rs

/-- Tiles of color `c` placed on one player's wall. -/
def wallCount (c : Color) (wall : List (List Bool)) : Nat :=
  wallCountFrom c 0 wall

/-- The conserved quantity: tiles of color `c` across bag, center,
factories, pattern lines, floor lines, discard pile and placed wall
cells. -/
def tileCount (c : Color) (s : GameState) : Nat :=
  s.bag.count c + s.center.count c + sumCounts c s.factories
    + (s.patternLines.map (fun pl => sumCounts c pl)).sum
    + sumCounts c s.floorLines
    + s.discardPile.count c
    + (s.walls.map (fun w => wallCount c w)).sum

/-- States reachable from a freshly created match by successful moves.
Moves always arrive through `parseMove` (`Azul.do`), which bounds the
target line index by 4; the pile index needs no bound (an out-of-range
factory reads as an empty pile and fails `ColorNotInPile`). -/
inductive Reachable : GameState → Prop
  | init (bag : List Color) (n : Nat) (s : GameState) :
      (∀ c, bag.count c = 20) → (n = 2 ∨ n = 3 ∨ n = 4) →
      createMatch bag n = .ok s → Reachable s
  | step (s s' : GameState) (pileIndex lineIndex : Nat) (color : Color) :
      Reachable s → lineIndex < 5 →
      pickTiles s pileIndex lineIndex color = .ok s' → Reachable s'

/-- Positions (within the zipped range) whose ordering color is `t`
and whose wall cell is still false: exactly the cells `setTrueWhere`
newly turns true. -/
def newTruePos (t : Color) : List Color → List Bool → Nat
  | [], _ => 0
  | _ :: _, [] => 0
  | o :: os, b :: bs => (if o = t ∧ b = false then 1 else 0) + newTruePos t os bs

/-- The tiles one round of wall-tiling sends to the discard pile from
the lines starting at index `i`: every complete line contributes all
but its last tile, in line order. -/
def lineDiscards : Nat → List (List Color) → List Color
  | _, [] => []
  | i, line :: rest =>
    (if line.length = patternLineSize i then line.dropLast else []) ++ lineDiscards (i + 1) rest

/-- The tiles one round of wall-tiling sends to the discard pile, over
all players in order. -/
def playersDiscards : List (List (List Color)) → List Color
  | [] => []
  | pl :: rest => lineDiscards 0 pl ++ playersDiscards rest

/-- The inductive invariant of reachable states: structural
well-formedness, the pattern-line discipline (capacity bound, one color
per line, the line's color not yet on the wall row), and tile
conservation. -/
structure Inv (s : GameState) : Prop where
  np : s.numberOfPlayers = 2 ∨ s.numberOfPlayers = 3 ∨ s.numberOfPlayers = 4
  cpi_lt : s.currentPlayerIndex < s.numberOfPlayers
  sp_lt : s.startingPlayer < s.numberOfPlayers
  pl_len : s.patternLines.length = s.numberOfPlayers
  pl_inner : ∀ pl ∈ s.patternLines, pl.length = 5
  walls_len : s.walls.length = s.numberOfPlayers
  walls_inner : ∀ w ∈ s.walls, w.length = 5
  walls_rows : ∀ p j, j < (s.walls.getD p []).length → ((s.walls.getD p []).getD j []).length = 5
  fl_len : s.floorLines.length = s.numberOfPlayers
  line_cap : ∀ p i, (getLine s p i).length ≤ patternLineSize i
  line_pure : ∀ p i, ∀ x ∈ getLine s p i, ∀ y ∈ getLine s p i, x = y
  line_wall : ∀ p i, ∀ x ∈ getLine s p i,
      wallRowHasColor (wallOrdering.getD i []) (getWallRow s p i) x = false
  conserve : ∀ c, tileCount c s = 20

/-- A 2-player mid-game position used as a concrete test state: the
center holds a red and a blue tile, factory 1 holds two blacks, an aqua
and a yellow, the boards are blank. -/
def sW : GameState :=
  { currentPlayerIndex := 0, numberOfPlayers := 2, startingPlayer := 0,
    bag := [], center := [RED, BLUE],
    factories := [[BLACK, BLACK, AQUA, YELLOW], [], [], [], []],
    patternLines := List.replicate 2 (List.replicate 5 []),
    walls := List.replicate 2 (List.replicate 5 (List.replicate 5 false)),
    floorLines := [[], []], discardPile := [] }

/-- The state after drafting both blacks of factory 1 onto line 0 of
`sW` (one fits; one overflows to the floor line). -/
def sWafter : GameState := (pickTiles sW 1 0 BLACK).toOption.getD default

/-- A position one draft away from completing wall row 0 of player 0:
only the aqua cell of that row is missing, the center holds exactly one
aqua tile and every factory is empty. -/
def sC3 : GameState :=
  { currentPlayerIndex := 0, numberOfPlayers := 2, startingPlayer := 0,
    bag := [], center := [AQUA], factories := [[], [], [], [], []],
    patternLines := List.replicate 2 (List.replicate 5 []),
    walls := [[[true, true, true, true, false],
               [false, false, false, false, false],
               [false, false, false, false, false],
               [false, false, false, false, false],
               [false, false, false, false, false]],
              List.replicate 5 (List.replicate 5 false)],
    floorLines := [[], []], discardPile := [] }

/-- A 2-player position with empty piles and a bag of only 3 tiles:
fewer than the 20 a redeal of 5 factories needs. -/
def sC4 : GameState :=
  { currentPlayerIndex := 0, numberOfPlayers := 2, startingPlayer := 0,
    bag := [RED, RED, RED], center := [], factories := [[], [], [], [], []],
    patternLines := List.replicate 2 (List.replicate 5 []),
    walls := List.replicate 2 (List.replicate 5 (List.replicate 5 false)),
    floorLines := [[], []], discardPile := [] }

/-- A position in which drafting the two reds of factory 1 empties the
center and every factory, with 4 tiles left in the bag for the redeal. -/
def sC7 : GameState :=
  { currentPlayerIndex := 0, numberOfPlayers := 2, startingPlayer := 0,
    bag := [BLUE, BLUE, BLUE, BLUE], center := [],
    factories := [[RED, RED], [], [], [], []],
    patternLines := List.replicate 2 (List.replicate 5 []),
    walls := List.replicate 2 (List.replicate 5 (List.replicate 5 false)),
    floorLines := [[], []], discardPile := [] }

/-- The state after the round-boundary move `1_RED_0` on `sC7`. -/
def sC7after : GameState := (pickTiles sC7 1 0 RED).toOption.getD default

/-- A position at a round boundary: player 0's line 1 is complete with
two blues, line 2 carries one red over. -/
def sC8 : GameState :=
  { currentPlayerIndex := 0, numberOfPlayers := 2, startingPlayer := 0,
    bag := [], center := [], factories := [],
    patternLines := [[[], [BLUE, BLUE], [RED], [], []], List.replicate 5 []],
    walls := List.replicate 2 (List.replicate 5 (List.replicate 5 false)),
    floorLines := [[YELLOW], []], discardPile := [AQUA] }

/-! ### List helper lemmas -/

theorem getD_set_self {α : Type} (l : List α) (i : Nat) (x d : α) (h : i < l.length) :
    (l.set i x).getD i d = x := by
  simp [List.getD_eq_getElem?_getD, List.getElem?_set_eq_of_lt, h]

theorem getD_set_ne {α : Type} (l : List α) (i j : Nat) (x d : α) (h : i ≠ j) :
    (l.set i x).getD j d = l.getD j d := by
  simp [List.getD_eq_getElem?_getD, List.getElem?_set_ne, h]

theorem set_getD_self {α : Type} (l : List α) (i : Nat) (d : α) :
    l.set i (l.getD i d) = l := by
  induction l generalizing i with
  | nil => rfl
  | cons a as ih =>
    cases i with
    | zero => simp [List.getD]
    | succ j => simp only [List.set, List.getD_cons_succ, ih]

theorem count_filter_partition (p : Color → Bool) (l : List Color) (a : Color) :
    l.count a = (l.filter p).count a + (l.filter (fun x => ! p x)).count a := by
  induction l with
  | nil => simp
  | cons x xs ih =>
    by_cases h : p x <;>
      simp [List.filter_cons, h, List.count_cons, ih] <;> ring

theorem sumCounts_set (c : Color) (ls : List (List Color)) (j : Nat) (x : List Color)
    (h : j < ls.length) :
    sumCounts c (ls.set j x) + (ls.getD j []).count c = sumCounts c ls + x.count c := by
  induction ls generalizing j with
  | nil => simp at h
  | cons l rest ih =>
    cases j with
    | zero => simp [sumCounts, List.getD]; ring
    | succ j =>
      simp only [List.set, List.getD_cons_succ, sumCounts, List.map_cons, List.sum_cons]
      have := ih j (by simpa using h)
      simp only [sumCounts] at this
      omega

theorem sumCounts_getD_le (c : Color) (ls : List (List Color)) (j : Nat) :
    (ls.getD j []).count c ≤ sumCounts c ls := by
  induction ls generalizing j with
  | nil => simp [List.getD]
  | cons l rest ih =>
    cases j with
    | zero =>
      simp only [List.getD_cons_zero, sumCounts, List.map_cons, List.sum_cons]
      omega
    | succ j =>
      simp only [List.getD_cons_succ, sumCounts, List.map_cons, List.sum_cons]
      have := ih j
      simp only [sumCounts] at this
      omega

theorem sumCounts_nil_of_all_empty (c : Color) (ls : List (List Color))
    (h : ∀ f ∈ ls, f = []) : sumCounts c ls = 0 := by
  induction ls with
  | nil => rfl
  | cons l rest ih =>
    have hl : l = [] := h l (by simp)
    have hr : sumCounts c rest = 0 := ih (fun f hf => h f (by simp [hf]))
    simp [sumCounts, hl] at *
    exact hr

theorem sum_map_set {α : Type} (f : α → Nat) (d : α) (ls : List α) (j : Nat) (x : α)
    (h : j < ls.length) :
    ((ls.set j x).map f).sum + f (ls.getD j d) = (ls.map f).sum + f x := by
  induction ls generalizing j with
  | nil => simp at h
  | cons l rest ih =>
    cases j with
    | zero => simp [List.getD]; ring
    | succ j =>
      simp only [List.set, List.getD_cons_succ, List.map_cons, List.sum_cons]
      have := ih j (by simpa using h)
      omega

/-! ### `placeTiles`: untouched fields and the placement result -/

theorem placeTiles_bag (ts : List Color) (s : GameState) (cpi li : Nat) :
    (placeTiles s cpi li ts).bag = s.bag := by
  induction ts generalizing s with
  | nil => rfl
  | cons t ts ih => simp only [placeTiles]; split <;> simp [ih, setLine, pushToFloor]

theorem placeTiles_center (ts : List Color) (s : GameState) (cpi li : Nat) :
    (placeTiles s cpi li ts).center = s.center := by
  induction ts generalizing s with
  | nil => rfl
  | cons t ts ih => simp only [placeTiles]; split <;> simp [ih, setLine, pushToFloor]

theorem placeTiles_factories (ts : List Color) (s : GameState) (cpi li : Nat) :
    (placeTiles s cpi li ts).factories = s.factories := by
  induction ts generalizing s with
  | nil => rfl
  | cons t ts ih => simp only [placeTiles]; split <;> simp [ih, setLine, pushToFloor]

theorem placeTiles_discardPile (ts : List Color) (s : GameState) (cpi li : Nat) :
    (placeTiles s cpi li ts).discardPile = s.discardPile := by
  induction ts generalizing s with
  | nil => rfl
  | cons t ts ih => simp only [placeTiles]; split <;> simp [ih, setLine, pushToFloor]

theorem placeTiles_walls (ts : List Color) (s : GameState) (cpi li : Nat) :
    (placeTiles s cpi li ts).walls = s.walls := by
  induction ts generalizing s with
  | nil => rfl
  | cons t ts ih => simp only [placeTiles]; split <;> simp [ih, setLine, pushToFloor]

theorem placeTiles_currentPlayerIndex (ts : List Color) (s : GameState) (cpi li : Nat) :
    (placeTiles s cpi li ts).currentPlayerIndex = s.currentPlayerIndex := by
  induction ts generalizing s with
  | nil => rfl
  | cons t ts ih => simp only [placeTiles]; split <;> simp [ih, setLine, pushToFloor]

theorem placeTiles_numberOfPlayers (ts : List Color) (s : GameState) (cpi li : Nat) :
    (placeTiles s cpi li ts).numberOfPlayers = s.numberOfPlayers := by
  induction ts generalizing s with
  | nil => rfl
  | cons t ts ih => simp only [placeTiles]; split <;> simp [ih, setLine, pushToFloor]

theorem placeTiles_startingPlayer (ts : List Color) (s : GameState) (cpi li : Nat) :
    (placeTiles s cpi li ts).startingPlayer = s.startingPlayer := by
  induction ts generalizing s with
  | nil => rfl
  | cons t ts ih => simp only [placeTiles]; split <;> simp [ih, setLine, pushToFloor]

/-- Exact effect of the placement loop on pattern lines and floor
lines: the first `capacity − length` tiles extend the chosen line, the
rest extend the current player's floor line. -/
theorem placeTiles_main (ts : List Color) (s : GameState) (li : Nat)
    (hf : s.currentPlayerIndex < s.floorLines.length)
    (hi : li < (s.patternLines.getD s.currentPlayerIndex []).length)
    (hcap : (getLine s s.currentPlayerIndex li).length ≤ patternLineSize li) :
    (placeTiles s s.currentPlayerIndex li ts).patternLines
      = s.patternLines.set s.currentPlayerIndex
          ((s.patternLines.getD s.currentPlayerIndex []).set li
            (getLine s s.currentPlayerIndex li
              ++ ts.take (patternLineSize li - (getLine s s.currentPlayerIndex li).length)))
    ∧ (placeTiles s s.currentPlayerIndex li ts).floorLines
      = s.floorLines.set s.currentPlayerIndex
          ((s.floorLines.getD s.currentPlayerIndex [])
            ++ ts.drop (patternLineSize li - (getLine s s.currentPlayerIndex li).length)) := by
  induction ts generalizing s with
  | nil =>
    constructor
    · show s.patternLines = _
      rw [List.take_nil, List.append_nil]
      show s.patternLines
        = s.patternLines.set s.currentPlayerIndex
            ((s.patternLines.getD s.currentPlayerIndex []).set li
              ((s.patternLines.getD s.currentPlayerIndex []).getD li []))
      rw [set_getD_self, set_getD_self]
    · show s.floorLines = _
      rw [List.drop_nil, List.append_nil, set_getD_self]
  | cons t ts ih =>
    have hlen : (getLine s s.currentPlayerIndex li).length ≤ li + 1 := hcap
    simp only [placeTiles]
    by_cases hfree : numFreeSpacesOnPatternLine s li ≠ 0
    · -- free space: the tile extends the pattern line
      have hlt : (getLine s s.currentPlayerIndex li).length < patternLineSize li := by
        unfold numFreeSpacesOnPatternLine at hfree
        unfold patternLineSize at *
        omega
      rw [if_pos hfree]
      set s2 := setLine s s.currentPlayerIndex li (getLine s s.currentPlayerIndex li ++ [t])
        with hs2
      have h2cpi : s2.currentPlayerIndex = s.currentPlayerIndex := rfl
      have h2fl : s2.floorLines = s.floorLines := rfl
      have h2pl : s2.patternLines
          = s.patternLines.set s.currentPlayerIndex
              ((s.patternLines.getD s.currentPlayerIndex []).set li
                (getLine s s.currentPlayerIndex li ++ [t])) := rfl
      by_cases hpp : s.currentPlayerIndex < s.patternLines.length
      · have h2inner : s2.patternLines.getD s.currentPlayerIndex []
            = (s.patternLines.getD s.currentPlayerIndex []).set li
                (getLine s s.currentPlayerIndex li ++ [t]) := by
          rw [h2pl, getD_set_self _ _ _ _ hpp]
        have h2line : getLine s2 s.currentPlayerIndex li
            = getLine s s.currentPlayerIndex li ++ [t] := by
          unfold getLine
          rw [h2inner, getD_set_self _ _ _ _ hi]
          rfl
        have hlapp : (getLine s s.currentPlayerIndex li ++ [t]).length
            = (getLine s s.currentPlayerIndex li).length + 1 := by simp
        have harith : patternLineSize li - (getLine s s.currentPlayerIndex li).length
            = (patternLineSize li - (getLine s s.currentPlayerIndex li ++ [t]).length) + 1 := by
          rw [hlapp]; omega
        have ih2 := ih s2 (by rw [h2cpi, h2fl]; exact hf)
          (by rw [h2cpi, h2inner]; simpa using hi)
          (by rw [h2cpi, h2line, hlapp]; omega)
        rw [h2cpi] at ih2
        obtain ⟨ihp, ihf⟩ := ih2
        constructor
        · rw [ihp, h2inner, h2line, h2pl, List.set_set, List.set_set]
          congr 2
          rw [harith, List.take_succ_cons, List.append_assoc]
          rfl
        · rw [ihf, h2fl, h2line]
          congr 2
          rw [harith, List.drop_succ_cons]
      · -- current player index out of range: impossible given `hi`
        exfalso
        have : s.patternLines.getD s.currentPlayerIndex [] = [] := by
          rw [List.getD_eq_getElem?_getD, List.getElem?_eq_none (by omega)]
          rfl
        rw [this] at hi
        simp at hi
    · -- no free space: the tile goes to the floor line
      have hfull : (getLine s s.currentPlayerIndex li).length = patternLineSize li := by
        unfold numFreeSpacesOnPatternLine at hfree
        unfold patternLineSize at *
        omega
      rw [if_neg hfree]
      set s2 := pushToFloor s s.currentPlayerIndex t with hs2
      have h2cpi : s2.currentPlayerIndex = s.currentPlayerIndex := rfl
      have h2pl : s2.patternLines = s.patternLines := rfl
      have h2fl : s2.floorLines
          = s.floorLines.set s.currentPlayerIndex
              ((s.floorLines.getD s.currentPlayerIndex []) ++ [t]) := rfl
      have h2line : getLine s2 s.currentPlayerIndex li = getLine s s.currentPlayerIndex li := by
        unfold getLine
        rw [h2pl]
      have ih2 := ih s2 (by rw [h2cpi, h2fl]; simpa using hf)
        (by rw [h2cpi, h2pl]; exact hi)
        (by rw [h2cpi, h2line]; exact hcap)
      rw [h2cpi] at ih2
      obtain ⟨ihp, ihf⟩ := ih2
      have hzero : patternLineSize li - (getLine s s.currentPlayerIndex li).length = 0 := by
        omega
      constructor
      · rw [ihp, h2pl, h2line, hzero, List.take_zero, List.append_nil,
          show getLine s s.currentPlayerIndex li
              = (s.patternLines.getD s.currentPlayerIndex []).getD li [] from rfl,
          set_getD_self, set_getD_self, List.take_zero, List.append_nil,
          set_getD_self, set_getD_self]
      · rw [ihf, h2fl, h2line, hzero, List.drop_zero, getD_set_self _ _ _ _ hf,
          List.set_set, List.append_assoc]
        rfl

/-- Placement conserves tiles: the placed state holds the old tiles
plus everything that was placed. -/
theorem tileCount_placeTiles (c : Color) (ts : List Color) (s : GameState) (li : Nat)
    (hpp : s.currentPlayerIndex < s.patternLines.length)
    (hf : s.currentPlayerIndex < s.floorLines.length)
    (hi : li < (s.patternLines.getD s.currentPlayerIndex []).length)
    (hcap : (getLine s s.currentPlayerIndex li).length ≤ patternLineSize li) :
    tileCount c (placeTiles s s.currentPlayerIndex li ts) = tileCount c s + ts.count c := by
  obtain ⟨hP, hF⟩ := placeTiles_main ts s li hf hi hcap
  have hdef : getLine s s.currentPlayerIndex li
      = (s.patternLines.getD s.currentPlayerIndex []).getD li [] := rfl
  rw [hdef] at hP hF
  have h1 := sum_map_set (fun pl => sumCounts c pl) [] s.patternLines s.currentPlayerIndex
      ((s.patternLines.getD s.currentPlayerIndex []).set li
        ((s.patternLines.getD s.currentPlayerIndex []).getD li []
          ++ ts.take (patternLineSize li
                - ((s.patternLines.getD s.currentPlayerIndex []).getD li []).length))) hpp
  have h2 := sum_map_set (fun l => l.count c) [] (s.patternLines.getD s.currentPlayerIndex []) li
      ((s.patternLines.getD s.currentPlayerIndex []).getD li []
        ++ ts.take (patternLineSize li
              - ((s.patternLines.getD s.currentPlayerIndex []).getD li []).length)) hi
  have h3 := sum_map_set (fun l => l.count c) [] s.floorLines s.currentPlayerIndex
      ((s.floorLines.getD s.currentPlayerIndex [])
        ++ ts.drop (patternLineSize li
              - ((s.patternLines.getD s.currentPlayerIndex []).getD li []).length)) hf
  have htdc : (ts.take (patternLineSize li
          - ((s.patternLines.getD s.currentPlayerIndex []).getD li []).length)).count c
        + (ts.drop (patternLineSize li
          - ((s.patternLines.getD s.currentPlayerIndex []).getD li []).length)).count c
      = ts.count c := by
    conv_rhs => rw [← List.take_append_drop (patternLineSize li
      - ((s.patternLines.getD s.currentPlayerIndex []).getD li []).length) ts]
    rw [List.count_append]
  simp only [List.count_append] at h2 h3
  unfold tileCount
  rw [hP, hF, placeTiles_bag, placeTiles_center, placeTiles_factories, placeTiles_discardPile,
    placeTiles_walls]
  simp only [sumCounts] at h1 h2 h3 ⊢
  omega

theorem placeTiles_patternLines_length (ts : List Color) (s : GameState) (cpi li : Nat) :
    (placeTiles s cpi li ts).patternLines.length = s.patternLines.length := by
  induction ts generalizing s with
  | nil => rfl
  | cons t ts ih => simp only [placeTiles]; split <;> simp [ih, setLine, pushToFloor]

theorem placeTiles_floorLines_length (ts : List Color) (s : GameState) (cpi li : Nat) :
    (placeTiles s cpi li ts).floorLines.length = s.floorLines.length := by
  induction ts generalizing s with
  | nil => rfl
  | cons t ts ih => simp only [placeTiles]; split <;> simp [ih, setLine, pushToFloor]

/-! ### `afterDraft` characterization -/

theorem afterDraft_bag (s : GameState) (pi li : Nat) (c : Color) :
    (afterDraft s pi li c).bag = s.bag := by
  by_cases h : pi = 0 <;> simp [afterDraft, h, placeTiles_bag]

theorem afterDraft_walls (s : GameState) (pi li : Nat) (c : Color) :
    (afterDraft s pi li c).walls = s.walls := by
  by_cases h : pi = 0 <;> simp [afterDraft, h, placeTiles_walls]

theorem afterDraft_discardPile (s : GameState) (pi li : Nat) (c : Color) :
    (afterDraft s pi li c).discardPile = s.discardPile := by
  by_cases h : pi = 0 <;> simp [afterDraft, h, placeTiles_discardPile]

theorem afterDraft_currentPlayerIndex (s : GameState) (pi li : Nat) (c : Color) :
    (afterDraft s pi li c).currentPlayerIndex = s.currentPlayerIndex := by
  by_cases h : pi = 0 <;> simp [afterDraft, h, placeTiles_currentPlayerIndex]

theorem afterDraft_numberOfPlayers (s : GameState) (pi li : Nat) (c : Color) :
    (afterDraft s pi li c).numberOfPlayers = s.numberOfPlayers := by
  by_cases h : pi = 0 <;> simp [afterDraft, h, placeTiles_numberOfPlayers]

theorem afterDraft_startingPlayer (s : GameState) (pi li : Nat) (c : Color) :
    (afterDraft s pi li c).startingPlayer = s.startingPlayer := by
  by_cases h : pi = 0 <;> simp [afterDraft, h, placeTiles_startingPlayer]

theorem afterDraft_patternLines (s : GameState) (pi li : Nat) (c : Color) :
    (afterDraft s pi li c).patternLines
      = (placeTiles s s.currentPlayerIndex li (pickedOf s pi c)).patternLines := by
  by_cases h : pi = 0 <;> simp [afterDraft, h]

theorem afterDraft_floorLines (s : GameState) (pi li : Nat) (c : Color) :
    (afterDraft s pi li c).floorLines
      = (placeTiles s s.currentPlayerIndex li (pickedOf s pi c)).floorLines := by
  by_cases h : pi = 0 <;> simp [afterDraft, h]

theorem afterDraft_center_zero (s : GameState) (li : Nat) (c : Color) :
    (afterDraft s 0 li c).center = remainderOf s 0 c := by
  simp [afterDraft]

theorem afterDraft_factories_zero (s : GameState) (li : Nat) (c : Color) :
    (afterDraft s 0 li c).factories = s.factories := by
  simp [afterDraft, placeTiles_factories]

theorem afterDraft_center_pos (s : GameState) (pi li : Nat) (c : Color) (h : pi ≠ 0) :
    (afterDraft s pi li c).center = s.center ++ remainderOf s pi c := by
  simp [afterDraft, h, placeTiles_center]

theorem afterDraft_factories_pos (s : GameState) (pi li : Nat) (c : Color) (h : pi ≠ 0) :
    (afterDraft s pi li c).factories = s.factories.set (pi - 1) [] := by
  simp [afterDraft, h, placeTiles_factories]

theorem getD_out_of_range {α : Type} (l : List α) (j : Nat) (d : α) (h : ¬ j < l.length) :
    l.getD j d = d := by
  rw [List.getD_eq_getElem?_getD, List.getElem?_eq_none (by omega)]
  rfl

theorem count_picked_remainder (s : GameState) (pi : Nat) (color c : Color) :
    (pileOf s pi).count c = (pickedOf s pi color).count c + (remainderOf s pi color).count c := by
  have := count_filter_partition (fun t => decide (t = color)) (pileOf s pi) c
  simpa [pickedOf, remainderOf] using this

/-- The draft phase conserves tiles. -/
theorem tileCount_afterDraft (c : Color) (s : GameState) (pi li : Nat) (color : Color)
    (hpp : s.currentPlayerIndex < s.patternLines.length)
    (hf : s.currentPlayerIndex < s.floorLines.length)
    (hi : li < (s.patternLines.getD s.currentPlayerIndex []).length)
    (hcap : (getLine s s.currentPlayerIndex li).length ≤ patternLineSize li)
    (hmem : color ∈ pileOf s pi) :
    tileCount c (afterDraft s pi li color) = tileCount c s := by
  have hplace := tileCount_placeTiles c (pickedOf s pi color) s li hpp hf hi hcap
  have hpart := count_picked_remainder s pi color c
  by_cases h : pi = 0
  · subst h
    have hpile : pileOf s 0 = s.center := rfl
    unfold tileCount at *
    rw [placeTiles_bag, placeTiles_center, placeTiles_factories, placeTiles_discardPile,
      placeTiles_walls] at hplace
    rw [afterDraft_bag, afterDraft_walls, afterDraft_discardPile, afterDraft_center_zero,
      afterDraft_factories_zero, afterDraft_patternLines, afterDraft_floorLines]
    rw [hpile] at hpart
    omega
  · have hfi : pi - 1 < s.factories.length := by
      by_contra hout
      rw [pileOf, if_neg h, getD_out_of_range _ _ _ hout] at hmem
      simp at hmem
    have hpile : pileOf s pi = s.factories.getD (pi - 1) [] := by rw [pileOf, if_neg h]
    have hfact := sumCounts_set c s.factories (pi - 1) [] hfi
    unfold tileCount at *
    rw [placeTiles_bag, placeTiles_center, placeTiles_factories, placeTiles_discardPile,
      placeTiles_walls] at hplace
    rw [afterDraft_bag, afterDraft_walls, afterDraft_discardPile, afterDraft_center_pos _ _ _ _ h,
      afterDraft_factories_pos _ _ _ _ h, afterDraft_patternLines, afterDraft_floorLines,
      List.count_append]
    rw [hpile] at hpart
    simp only [List.count_nil] at hfact
    omega

/-! ### Wall-row lemmas -/

theorem setTrueWhere_length (t : Color) : ∀ (ord : List Color) (bs : List Bool),
    (setTrueWhere ord t bs).length = bs.length
  | [], _ => rfl
  | _ :: _, [] => rfl
  | o :: os, b :: bs => by
    simp only [setTrueWhere, List.length_cons, setTrueWhere_length t os bs]

theorem wallRowCount_setTrueWhere (c t : Color) : ∀ (ord : List Color) (bs : List Bool),
    wallRowCount c ord (setTrueWhere ord t bs)
      = wallRowCount c ord bs + (if c = t then newTruePos t ord bs else 0) := by
  intro ord
  induction ord with
  | nil => intro bs; simp [setTrueWhere, wallRowCount, newTruePos]
  | cons o os ih =>
    intro bs
    cases bs with
    | nil => simp [setTrueWhere, wallRowCount, newTruePos]
    | cons b bs =>
      simp only [setTrueWhere, wallRowCount, newTruePos, ih bs]
      by_cases ho : o = t <;> by_cases hc : c = t <;> cases b <;>
        first
          | (simp [ho, hc]; omega)
          | (simp [ho, hc]; exact fun h => hc h.symm)
          | simp [ho, hc]

theorem newTruePos_of_not_hasColor (t : Color) : ∀ (ord : List Color) (bs : List Bool),
    wallRowHasColor ord bs t = false → ord.length ≤ bs.length →
    newTruePos t ord bs = ord.count t := by
  intro ord
  induction ord with
  | nil => intro bs _ _; simp [newTruePos]
  | cons o os ih =>
    intro bs hno hlen
    cases bs with
    | nil => simp at hlen
    | cons b bs =>
      have hsplit : (b && decide (o = t)) = false ∧ wallRowHasColor os bs t = false := by
        have h0 := hno
        simp only [wallRowHasColor, List.zip_cons_cons, List.any_cons,
          Bool.or_eq_false_iff] at h0
        exact ⟨h0.1, by simp only [wallRowHasColor]; exact h0.2⟩
      have hrec := ih bs hsplit.2 (by simpa using hlen)
      simp only [newTruePos, hrec]
      by_cases ho : o = t
      · have hb : b = false := by
          have h1 := hsplit.1
          rw [ho] at h1
          simpa using h1
        simp [List.count_cons, ho, hb]
        omega
      · simp [List.count_cons, ho, Ne.symm ho]

theorem count_true_setTrueWhere (t : Color) : ∀ (ord : List Color) (bs : List Bool),
    (setTrueWhere ord t bs).count true = bs.count true + newTruePos t ord bs := by
  intro ord
  induction ord with
  | nil => intro bs; simp [setTrueWhere, newTruePos]
  | cons o os ih =>
    intro bs
    cases bs with
    | nil => simp [setTrueWhere, newTruePos]
    | cons b bs =>
      simp only [setTrueWhere, List.count_cons, newTruePos, ih bs]
      by_cases ho : o = t <;> cases b <;> simp [ho] <;> omega

theorem setTrueWhere_getD (t : Color) : ∀ (ord : List Color) (bs : List Bool) (col : Nat),
    col < ord.length → col < bs.length →
    (setTrueWhere ord t bs).getD col false
      = ((bs.getD col false) || decide (ord.getD col BLACK = t)) := by
  intro ord
  induction ord with
  | nil => intro bs col h _; simp at h
  | cons o os ih =>
    intro bs col h1 h2
    cases bs with
    | nil => simp at h2
    | cons b bs =>
      cases col with
      | zero =>
        simp only [setTrueWhere, List.getD_cons_zero]
        by_cases ho : o = t <;> simp [ho]
      | succ col =>
        simp only [setTrueWhere, List.getD_cons_succ]
        exact ih bs col (by simpa using h1) (by simpa using h2)

theorem wallOrdering_getD_count : ∀ i < 5, ∀ t : Color, (wallOrdering.getD i []).count t = 1 := by
  decide

theorem count_uniform (l : List Color) (t : Color) (h : ∀ x ∈ l, x = t) (c : Color) :
    l.count c = if c = t then l.length else 0 := by
  induction l with
  | nil => simp
  | cons a as ih =>
    have ha : a = t := h a (by simp)
    have hrest := ih (fun x hx => h x (by simp [hx]))
    subst ha
    by_cases hc : c = a
    · subst hc
      simp [List.count_cons, hrest]
    · simp [List.count_cons, hc, Ne.symm hc, hrest]

theorem getLast_eq_getLastD {α : Type} (l : List α) (h : l ≠ []) (d : α) :
    l.getLast h = l.getLastD d := by
  rw [List.getLastD_eq_getLast?, List.getLast?_eq_getLast l h]
  rfl

theorem wallOrdering_getD_length : ∀ i < 5, (wallOrdering.getD i []).length = 5 := by
  decide

/-! ### `processLines` characterization -/

theorem processLines_fst_length : ∀ (i : Nat) (lines : List (List Color))
    (wall : List (List Bool)) (d : List Color),
    (processLines i lines wall d).1.length = lines.length
  | _, [], _, _ => rfl
  | _, _ :: _, [], _ => rfl
  | i, line :: rest, wrow :: wrest, d => by
    simp only [processLines]
    split <;>
      simp [processLines_fst_length (i + 1) rest wrest]

theorem processLines_snd_length : ∀ (i : Nat) (lines : List (List Color))
    (wall : List (List Bool)) (d : List Color),
    (processLines i lines wall d).2.1.length = wall.length
  | _, [], _, _ => rfl
  | _, _ :: _, [], _ => rfl
  | i, line :: rest, wrow :: wrest, d => by
    simp only [processLines]
    split <;>
      simp [processLines_snd_length (i + 1) rest wrest]

/-- The produced pattern lines and wall do not depend on the discard
accumulator. -/
theorem processLines_d_indep : ∀ (i : Nat) (lines : List (List Color))
    (wall : List (List Bool)) (d d' : List Color),
    (processLines i lines wall d).1 = (processLines i lines wall d').1
    ∧ (processLines i lines wall d).2.1 = (processLines i lines wall d').2.1
  | _, [], _, _, _ => ⟨rfl, rfl⟩
  | _, _ :: _, [], _, _ => ⟨rfl, rfl⟩
  | i, line :: rest, wrow :: wrest, d, d' => by
    simp only [processLines]
    split <;>
      exact ⟨by simp only [List.cons.injEq, true_and]
                exact (processLines_d_indep (i + 1) rest wrest _ _).1,
             by simp only [List.cons.injEq, true_and]
                exact (processLines_d_indep (i + 1) rest wrest _ _).2⟩

theorem processLines_fst_getD : ∀ (i : Nat) (lines : List (List Color))
    (wall : List (List Bool)) (d : List Color) (j : Nat),
    wall.length = lines.length →
    (processLines i lines wall d).1.getD j []
      = if (lines.getD j []).length = patternLineSize (i + j) then [] else lines.getD j [] := by
  intro i lines
  induction lines generalizing i with
  | nil =>
    intro wall d j h
    have : wall = [] := List.eq_nil_of_length_eq_zero (by simpa using h)
    subst this
    simp [processLines, List.getD, patternLineSize]
  | cons line rest ih =>
    intro wall d j h
    cases wall with
    | nil => simp at h
    | cons wrow wrest =>
      have hlen : wrest.length = rest.length := by simpa using h
      cases j with
      | zero =>
        simp only [processLines, List.getD_cons_zero, Nat.add_zero]
        split <;> rename_i hcomp <;> simp [hcomp]
      | succ j =>
        have harith : i + 1 + j = i + (j + 1) := by omega
        simp only [processLines]
        split <;>
          · dsimp only
            rw [List.getD_cons_succ, ih (i + 1) wrest _ j hlen, harith,
              List.getD_cons_succ]

theorem processLines_snd_getD : ∀ (i : Nat) (lines : List (List Color))
    (wall : List (List Bool)) (d : List Color) (j : Nat),
    wall.length = lines.length →
    (processLines i lines wall d).2.1.getD j []
      = if (lines.getD j []).length = patternLineSize (i + j)
        then setTrueWhere (wallOrdering.getD (i + j) []) ((lines.getD j []).getLastD BLACK)
              (wall.getD j [])
        else wall.getD j [] := by
  intro i lines
  induction lines generalizing i with
  | nil =>
    intro wall d j h
    have : wall = [] := List.eq_nil_of_length_eq_zero (by simpa using h)
    subst this
    simp [processLines, List.getD, patternLineSize]
  | cons line rest ih =>
    intro wall d j h
    cases wall with
    | nil => simp at h
    | cons wrow wrest =>
      have hlen : wrest.length = rest.length := by simpa using h
      cases j with
      | zero =>
        simp only [processLines, List.getD_cons_zero, Nat.add_zero]
        split <;> rename_i hcomp
        · simp only [List.getD_cons_zero, if_pos hcomp]
          congr 1
          exact getLast_eq_getLastD line _ BLACK
        · simp [hcomp]
      | succ j =>
        have harith : i + 1 + j = i + (j + 1) := by omega
        simp only [processLines]
        split <;>
          · dsimp only
            rw [List.getD_cons_succ, ih (i + 1) wrest _ j hlen, harith,
              List.getD_cons_succ, List.getD_cons_succ]

theorem processLines_discard : ∀ (i : Nat) (lines : List (List Color))
    (wall : List (List Bool)) (d : List Color),
    wall.length = lines.length →
    (processLines i lines wall d).2.2 = d ++ lineDiscards i lines := by
  intro i lines
  induction lines generalizing i with
  | nil =>
    intro wall d h
    have : wall = [] := List.eq_nil_of_length_eq_zero (by simpa using h)
    subst this
    simp [processLines, lineDiscards]
  | cons line rest ih =>
    intro wall d h
    cases wall with
    | nil => simp at h
    | cons wrow wrest =>
      have hlen : wrest.length = rest.length := by simpa using h
      simp only [processLines, lineDiscards]
      split <;> rename_i hcomp
      · rw [ih (i + 1) wrest _ hlen, List.append_assoc]
      · rw [ih (i + 1) wrest _ hlen]
        simp

theorem dropLast_mem {α : Type} {l : List α} {x : α} (h : x ∈ l.dropLast) : x ∈ l := by
  rw [List.dropLast_eq_take] at h
  exact List.take_subset _ _ h

/-- One player's wall-tiling conserves tiles: what leaves the pattern
lines reappears on the wall (one tile per complete line) and in the
discard pile (the rest). -/
theorem processLines_conserve (c : Color) : ∀ (i : Nat) (lines : List (List Color))
    (wall : List (List Bool)) (d : List Color),
    wall.length = lines.length →
    i + lines.length ≤ 5 →
    (∀ j, j < wall.length → (wall.getD j []).length = 5) →
    (∀ j, j < lines.length → ∀ x ∈ lines.getD j [], ∀ y ∈ lines.getD j [], x = y) →
    (∀ j, j < lines.length → (lines.getD j []).length = patternLineSize (i + j) →
      wallRowHasColor (wallOrdering.getD (i + j) []) (wall.getD j [])
        ((lines.getD j []).getLastD BLACK) = false) →
    sumCounts c (processLines i lines wall d).1
      + wallCountFrom c i (processLines i lines wall d).2.1
      + ((processLines i lines wall d).2.2).count c
    = sumCounts c lines + wallCountFrom c i wall + d.count c := by
  intro i lines
  induction lines generalizing i with
  | nil =>
    intro wall d h _ _ _ _
    simp [processLines, sumCounts]
  | cons line rest ih =>
    intro wall d h hmax hrows huni hfree
    cases wall with
    | nil => simp at h
    | cons wrow wrest =>
      have hlen : wrest.length = rest.length := by simpa using h
      have hi5 : i < 5 := by
        simp only [List.length_cons] at hmax
        omega
      have hrows' : ∀ j, j < wrest.length → (wrest.getD j []).length = 5 := by
        intro j hj
        have := hrows (j + 1) (by simp; omega)
        simpa using this
      have huni' : ∀ j, j < rest.length → ∀ x ∈ rest.getD j [], ∀ y ∈ rest.getD j [], x = y := by
        intro j hj
        have := huni (j + 1) (by simp; omega)
        simpa using this
      have hfree' : ∀ j, j < rest.length → (rest.getD j []).length = patternLineSize (i + 1 + j) →
          wallRowHasColor (wallOrdering.getD (i + 1 + j) []) (wrest.getD j [])
            ((rest.getD j []).getLastD BLACK) = false := by
        intro j hj hcj
        have harith : i + (j + 1) = i + 1 + j := by omega
        have := hfree (j + 1) (by simp; omega)
          (by rw [List.getD_cons_succ, harith]; exact hcj)
        rw [List.getD_cons_succ, List.getD_cons_succ, harith] at this
        exact this
      simp only [processLines]
      split <;> rename_i hcomp
      · -- complete line: pop the last tile to the wall, rest to discard
        dsimp only
        have hne : line ≠ [] := by
          intro hn
          rw [hn] at hcomp
          simp [patternLineSize] at hcomp
        rw [getLast_eq_getLastD line hne BLACK]
        have htmem : line.getLastD BLACK ∈ line := by
          have hm := List.getLast_mem hne
          rw [getLast_eq_getLastD line hne BLACK] at hm
          exact hm
        have huni0 : ∀ x ∈ line, ∀ y ∈ line, x = y := by
          have := huni 0 (by simp)
          simpa using this
        have hall : ∀ x ∈ line, x = line.getLastD BLACK :=
          fun x hx => huni0 x hx _ htmem
        have hcl : line.count c
            = if c = line.getLastD BLACK then line.length else 0 :=
          count_uniform line _ hall c
        have hcd : line.dropLast.count c
            = if c = line.getLastD BLACK then line.length - 1 else 0 := by
          rw [count_uniform line.dropLast (line.getLastD BLACK)
            (fun x hx => hall x (dropLast_mem hx)) c, List.length_dropLast]
        have hfree0 : wallRowHasColor (wallOrdering.getD i []) wrow
            (line.getLastD BLACK) = false := by
          have := hfree 0 (by simp) (by simpa using hcomp)
          simpa using this
        have hw : wallRowCount c (wallOrdering.getD i [])
              (setTrueWhere (wallOrdering.getD i []) (line.getLastD BLACK) wrow)
            = wallRowCount c (wallOrdering.getD i []) wrow
              + (if c = line.getLastD BLACK then 1 else 0) := by
          have hwrow5 : wrow.length = 5 := by simpa using hrows 0 (by simp)
          rw [wallRowCount_setTrueWhere,
            newTruePos_of_not_hasColor _ _ _ hfree0
              (by rw [wallOrdering_getD_length i hi5, hwrow5]),
            wallOrdering_getD_count i hi5]
        have hrec := ih (i + 1) wrest (d ++ line.dropLast) hlen
          (by simp only [List.length_cons] at hmax; omega) hrows' huni' hfree'
        simp only [sumCounts, List.map_cons, List.sum_cons, wallCountFrom,
          List.count_nil] at hrec ⊢
        rw [List.count_append] at hrec
        have hlinelen : line.length = i + 1 := hcomp
        rw [hw]
        by_cases hct : c = line.getLastD BLACK
        · rw [if_pos hct] at hcl hcd ⊢
          omega
        · rw [if_neg hct] at hcl hcd ⊢
          omega
      · -- incomplete line: untouched
        dsimp only
        have hrec := ih (i + 1) wrest d hlen
          (by simp only [List.length_cons] at hmax; omega) hrows' huni' hfree'
        simp only [sumCounts, List.map_cons, List.sum_cons, wallCountFrom] at hrec ⊢
        omega

/-! ### `processPlayers` characterization -/

theorem processPlayers_fst_length : ∀ (n : Nat) (pls : List (List (List Color)))
    (ws : List (List (List Bool))) (d : List Color),
    (processPlayers n pls ws d).1.length = pls.length
  | 0, _, _, _ => rfl
  | _ + 1, [], _, _ => by simp [processPlayers]
  | _ + 1, _ :: _, [], _ => by simp [processPlayers]
  | n + 1, pl :: pls, w :: ws, d => by
    simp only [processPlayers, List.length_cons]
    rw [processPlayers_fst_length n pls ws]

theorem processPlayers_snd_length : ∀ (n : Nat) (pls : List (List (List Color)))
    (ws : List (List (List Bool))) (d : List Color),
    (processPlayers n pls ws d).2.1.length = ws.length
  | 0, _, _, _ => rfl
  | _ + 1, [], _, _ => by simp [processPlayers]
  | _ + 1, _ :: _, [], _ => by simp [processPlayers]
  | n + 1, pl :: pls, w :: ws, d => by
    simp only [processPlayers, List.length_cons]
    rw [processPlayers_snd_length n pls ws]

theorem processPlayers_fst_getD : ∀ (n : Nat) (pls : List (List (List Color)))
    (ws : List (List (List Bool))) (d : List Color) (p : Nat),
    ws.length = pls.length → pls.length = n →
    (processPlayers n pls ws d).1.getD p []
      = (processLines 0 (pls.getD p []) (ws.getD p []) []).1 := by
  intro n
  induction n with
  | zero =>
    intro pls ws d p hw hn
    have hpls : pls = [] := List.eq_nil_of_length_eq_zero hn
    have hws : ws = [] := List.eq_nil_of_length_eq_zero (by omega)
    subst hpls hws
    simp [processPlayers, processLines, List.getD]
  | succ n ih =>
    intro pls ws d p hw hn
    cases pls with
    | nil => simp at hn
    | cons pl pls =>
      cases ws with
      | nil => simp at hw
      | cons w ws =>
        simp only [processPlayers]
        cases p with
        | zero =>
          simp only [List.getD_cons_zero]
          exact (processLines_d_indep 0 pl w d []).1
        | succ p =>
          simp only [List.getD_cons_succ]
          exact ih pls ws _ p (by simpa using hw) (by simpa using hn)

theorem processPlayers_snd_getD : ∀ (n : Nat) (pls : List (List (List Color)))
    (ws : List (List (List Bool))) (d : List Color) (p : Nat),
    ws.length = pls.length → pls.length = n →
    (processPlayers n pls ws d).2.1.getD p []
      = (processLines 0 (pls.getD p []) (ws.getD p []) []).2.1 := by
  intro n
  induction n with
  | zero =>
    intro pls ws d p hw hn
    have hpls : pls = [] := List.eq_nil_of_length_eq_zero hn
    have hws : ws = [] := List.eq_nil_of_length_eq_zero (by omega)
    subst hpls hws
    simp [processPlayers, processLines, List.getD]
  | succ n ih =>
    intro pls ws d p hw hn
    cases pls with
    | nil => simp at hn
    | cons pl pls =>
      cases ws with
      | nil => simp at hw
      | cons w ws =>
        simp only [processPlayers]
        cases p with
        | zero =>
          simp only [List.getD_cons_zero]
          exact (processLines_d_indep 0 pl w d []).2
        | succ p =>
          simp only [List.getD_cons_succ]
          exact ih pls ws _ p (by simpa using hw) (by simpa using hn)

theorem processPlayers_discard : ∀ (n : Nat) (pls : List (List (List Color)))
    (ws : List (List (List Bool))) (d : List Color),
    ws.length = pls.length → pls.length = n →
    (∀ pl ∈ pls, pl.length = 5) → (∀ w ∈ ws, w.length = 5) →
    (processPlayers n pls ws d).2.2 = d ++ playersDiscards pls := by
  intro n
  induction n with
  | zero =>
    intro pls ws d hw hn _ _
    have hpls : pls = [] := List.eq_nil_of_length_eq_zero hn
    subst hpls
    simp [processPlayers, playersDiscards]
  | succ n ih =>
    intro pls ws d hw hn h5 hw5
    cases pls with
    | nil => simp at hn
    | cons pl pls =>
      cases ws with
      | nil => simp at hw
      | cons w ws =>
        simp only [processPlayers, playersDiscards]
        rw [ih pls ws _ (by simpa using hw) (by simpa using hn)
            (fun x hx => h5 x (by simp [hx])) (fun x hx => hw5 x (by simp [hx])),
          processLines_discard 0 pl w d (by rw [hw5 w (by simp), h5 pl (by simp)]),
          List.append_assoc]

/-- Wall-tiling over all players conserves tiles, given the per-player
invariants. -/
theorem processPlayers_conserve (c : Color) : ∀ (n : Nat) (pls : List (List (List Color)))
    (ws : List (List (List Bool))) (d : List Color),
    ws.length = pls.length → pls.length = n →
    (∀ pl ∈ pls, pl.length = 5) → (∀ w ∈ ws, w.length = 5) →
    (∀ p j, j < (ws.getD p []).length → (((ws.getD p []).getD j [])).length = 5) →
    (∀ p j, ∀ x ∈ (pls.getD p []).getD j [], ∀ y ∈ (pls.getD p []).getD j [], x = y) →
    (∀ p j, ((pls.getD p []).getD j []).length = patternLineSize j →
      wallRowHasColor (wallOrdering.getD j []) ((ws.getD p []).getD j [])
        (((pls.getD p []).getD j []).getLastD BLACK) = false) →
    ((processPlayers n pls ws d).1.map (fun pl => sumCounts c pl)).sum
      + ((processPlayers n pls ws d).2.1.map (fun w => wallCount c w)).sum
      + ((processPlayers n pls ws d).2.2).count c
    = (pls.map (fun pl => sumCounts c pl)).sum
      + (ws.map (fun w => wallCount c w)).sum + d.count c := by
  intro n
  induction n with
  | zero =>
    intro pls ws d hw hn _ _ _ _ _
    have hpls : pls = [] := List.eq_nil_of_length_eq_zero hn
    have hws : ws = [] := List.eq_nil_of_length_eq_zero (by omega)
    subst hpls hws
    simp [processPlayers]
  | succ n ih =>
    intro pls ws d hw hn h5 hw5 hrows huni hfree
    cases pls with
    | nil => simp at hn
    | cons pl pls =>
      cases ws with
      | nil => simp at hw
      | cons w ws =>
        simp only [processPlayers]
        have hpl5 : pl.length = 5 := h5 pl (by simp)
        have hww5 : w.length = 5 := hw5 w (by simp)
        have hone := processLines_conserve c 0 pl w d (by rw [hww5, hpl5])
          (by rw [hpl5])
          (fun j hj => by have := hrows 0 j (by simpa using hj); simpa using this)
          (fun j hj => by have := huni 0 j; simpa using this)
          (fun j hj hcj => by
            rw [Nat.zero_add] at hcj ⊢
            have := hfree 0 j
            simp only [List.getD_cons_zero] at this
            exact this hcj)
        have hrec := ih pls ws (processLines 0 pl w d).2.2 (by simpa using hw)
          (by simpa using hn)
          (fun x hx => h5 x (by simp [hx])) (fun x hx => hw5 x (by simp [hx]))
          (fun p j hj => by have := hrows (p + 1) j; simp only [List.getD_cons_succ] at this
                            exact this hj)
          (fun p j => by have := huni (p + 1) j; simpa using this)
          (fun p j => by have := hfree (p + 1) j; simpa using this)
        simp only [List.map_cons, List.sum_cons]
        simp only [wallCount] at hone hrec ⊢
        omega

/-! ### `moveTilesToWall`, `repopulateFactories`, `takeChunks` -/

theorem moveTilesToWall_bag (s : GameState) : (moveTilesToWall s).bag = s.bag := rfl

theorem moveTilesToWall_center (s : GameState) : (moveTilesToWall s).center = s.center := rfl

theorem moveTilesToWall_factories (s : GameState) :
    (moveTilesToWall s).factories = s.factories := rfl

theorem moveTilesToWall_floorLines (s : GameState) :
    (moveTilesToWall s).floorLines = s.floorLines := rfl

theorem moveTilesToWall_currentPlayerIndex (s : GameState) :
    (moveTilesToWall s).currentPlayerIndex = s.currentPlayerIndex := rfl

theorem moveTilesToWall_numberOfPlayers (s : GameState) :
    (moveTilesToWall s).numberOfPlayers = s.numberOfPlayers := rfl

theorem moveTilesToWall_startingPlayer (s : GameState) :
    (moveTilesToWall s).startingPlayer = s.startingPlayer := rfl

theorem getD_mem {α : Type} (l : List α) (j : Nat) (d : α) (h : j < l.length) :
    l.getD j d ∈ l := by
  rw [List.getD_eq_getElem?_getD, List.getElem?_eq_getElem h]
  exact List.getElem_mem h

theorem mem_getD_form {α : Type} {l : List α} {x : α} (d : α) (h : x ∈ l) :
    ∃ j, j < l.length ∧ l.getD j d = x := by
  obtain ⟨i, hi, hx⟩ := List.mem_iff_getElem.mp h
  exact ⟨i, hi, by rw [List.getD_eq_getElem?_getD, List.getElem?_eq_getElem hi]; exact hx⟩

theorem allPilesAreEmpty_iff (s : GameState) :
    allPilesAreEmpty s = true ↔ s.center = [] ∧ ∀ f ∈ s.factories, f = [] := by
  simp [allPilesAreEmpty, List.isEmpty_iff, List.all_eq_true]

theorem takeChunks_count (c : Color) : ∀ (k : Nat) (bag : List Color),
    sumCounts c (takeChunks bag k).1 + ((takeChunks bag k).2).count c = bag.count c
  | 0, bag => by simp [takeChunks, sumCounts]
  | k + 1, bag => by
    simp only [takeChunks, sumCounts, List.map_cons, List.sum_cons]
    have hrec := takeChunks_count c k (bag.drop 4)
    simp only [sumCounts] at hrec
    have h2 : (bag.take 4).count c + (bag.drop 4).count c = bag.count c := by
      rw [← List.count_append, List.take_append_drop]
    omega

/-- Successful `repopulateFactories`: everything but the bag and the
factories is untouched, the dealt tiles come off the bag, and the guard
shows the piles were empty. -/
theorem repopulateFactories_ok (s s2 : GameState)
    (h : repopulateFactories s = .ok s2) :
    s2.center = s.center ∧ s2.patternLines = s.patternLines ∧ s2.walls = s.walls
    ∧ s2.floorLines = s.floorLines ∧ s2.discardPile = s.discardPile
    ∧ s2.currentPlayerIndex = s.currentPlayerIndex
    ∧ s2.numberOfPlayers = s.numberOfPlayers
    ∧ s2.startingPlayer = s.startingPlayer
    ∧ (∀ c, s2.bag.count c + sumCounts c s2.factories = s.bag.count c)
    ∧ allPilesAreEmpty s = true := by
  unfold repopulateFactories at h
  by_cases hemp : allPilesAreEmpty s = true
  · rw [if_neg (by simpa using hemp)] at h
    by_cases h2 : s.numberOfPlayers = 2
    · rw [if_pos h2] at h
      injection h with h
      subst h
      refine ⟨rfl, rfl, rfl, rfl, rfl, rfl, rfl, rfl, ?_, hemp⟩
      intro c
      have := takeChunks_count c 5 s.bag
      dsimp only
      omega
    · rw [if_neg h2] at h
      by_cases h3 : s.numberOfPlayers = 3
      · rw [if_pos h3] at h
        injection h with h
        subst h
        refine ⟨rfl, rfl, rfl, rfl, rfl, rfl, rfl, rfl, ?_, hemp⟩
        intro c
        have := takeChunks_count c 7 s.bag
        dsimp only
        omega
      · rw [if_neg h3] at h
        by_cases h4 : s.numberOfPlayers = 4
        · rw [if_pos h4] at h
          injection h with h
          subst h
          refine ⟨rfl, rfl, rfl, rfl, rfl, rfl, rfl, rfl, ?_, hemp⟩
          intro c
          have := takeChunks_count c 9 s.bag
          dsimp only
          omega
        · rw [if_neg h4] at h
          exact Except.noConfusion h
  · rw [if_pos (by simpa using hemp)] at h
    exact Except.noConfusion h

/-! ### `pickTiles` case analysis -/

/-- A successful move passes both checks and ends in one of the two
transition shapes: plain turn rotation, or round boundary with
wall-tiling and a redeal. -/
theorem pickTiles_ok_cases (s s' : GameState) (pi li : Nat) (color : Color)
    (h : pickTiles s pi li color = .ok s') :
    color ∈ pileOf s pi
    ∧ encureCanPlaceOnPatternLine s li color = none
    ∧ ((allPilesAreEmpty (afterDraft s pi li color) = false
        ∧ s' = { afterDraft s pi li color with
                 currentPlayerIndex :=
                   ((afterDraft s pi li color).currentPlayerIndex + 1)
                     % (afterDraft s pi li color).numberOfPlayers })
      ∨ (allPilesAreEmpty (afterDraft s pi li color) = true
        ∧ shouldEnd (moveTilesToWall (afterDraft s pi li color)) = false
        ∧ ∃ s4, repopulateFactories (moveTilesToWall (afterDraft s pi li color)) = .ok s4
            ∧ s' = { s4 with currentPlayerIndex := s4.startingPlayer })) := by
  unfold pickTiles at h
  by_cases hmem : color ∈ pileOf s pi
  · rw [if_neg (fun hn => hn hmem)] at h
    cases henc : encureCanPlaceOnPatternLine s li color with
    | some e =>
      rw [henc] at h
      exact Except.noConfusion h
    | none =>
      rw [henc] at h
      refine ⟨hmem, rfl, ?_⟩
      by_cases hemp : allPilesAreEmpty (afterDraft s pi li color) = true
      · rw [if_pos hemp] at h
        by_cases hend : shouldEnd (moveTilesToWall (afterDraft s pi li color)) = true
        · rw [if_pos hend] at h
          exact Except.noConfusion h
        · rw [if_neg hend] at h
          cases hrep : repopulateFactories (moveTilesToWall (afterDraft s pi li color)) with
          | error es =>
            rw [hrep] at h
            exact Except.noConfusion h
          | ok s4 =>
            rw [hrep] at h
            injection h with h
            exact Or.inr ⟨hemp, by simpa using hend, s4, rfl, h.symm⟩
      · rw [if_neg hemp] at h
        injection h with h
        exact Or.inl ⟨by simpa using hemp, h.symm⟩
  · rw [if_pos hmem] at h
    exact Except.noConfusion h

/-- Every error of `pickTiles` is one of the four shapes below; in the
first three the carried state is the input state itself. -/
theorem pickTiles_error_cases (s s' : GameState) (pi li : Nat) (color : Color)
    (e : AzulError) (h : pickTiles s pi li color = .error (e, s')) :
    (e = .ColorNotInPile ∧ s' = s)
    ∨ (encureCanPlaceOnPatternLine s li color = some e ∧ s' = s)
    ∨ (e = .GameEndingNotImplemented ∧ s' = moveTilesToWall (afterDraft s pi li color))
    ∨ repopulateFactories (moveTilesToWall (afterDraft s pi li color)) = .error (e, s') := by
  unfold pickTiles at h
  by_cases hmem : color ∈ pileOf s pi
  · rw [if_neg (fun hn => hn hmem)] at h
    cases henc : encureCanPlaceOnPatternLine s li color with
    | some e' =>
      rw [henc] at h
      injection h with h
      obtain ⟨h1, h2⟩ := Prod.mk.injEq .. ▸ h
      exact Or.inr (Or.inl ⟨congrArg some h1, h2.symm⟩)
    | none =>
      rw [henc] at h
      by_cases hemp : allPilesAreEmpty (afterDraft s pi li color) = true
      · rw [if_pos hemp] at h
        by_cases hend : shouldEnd (moveTilesToWall (afterDraft s pi li color)) = true
        · rw [if_pos hend] at h
          injection h with h
          obtain ⟨h1, h2⟩ := Prod.mk.injEq .. ▸ h
          exact Or.inr (Or.inr (Or.inl ⟨h1.symm, h2.symm⟩))
        · rw [if_neg hend] at h
          cases hrep : repopulateFactories (moveTilesToWall (afterDraft s pi li color)) with
          | error es =>
            rw [hrep] at h
            injection h with h
            exact Or.inr (Or.inr (Or.inr (congrArg Except.error h)))
          | ok s4 =>
            rw [hrep] at h
            exact Except.noConfusion h
      · rw [if_neg hemp] at h
        exact Except.noConfusion h
  · rw [if_pos hmem] at h
    injection h with h
    obtain ⟨h1, h2⟩ := Prod.mk.injEq .. ▸ h
    exact Or.inl ⟨h1.symm, h2.symm⟩

/-! ### The invariant through each phase -/

/-- Passing `encureCanPlaceOnPatternLine` means: the line is empty or
already holds the chosen color, and the wall row does not yet hold the
chosen color. -/
theorem encure_none_iff (s : GameState) (li : Nat) (color : Color) :
    encureCanPlaceOnPatternLine s li color = none ↔
      (getLine s s.currentPlayerIndex li = [] ∨ color ∈ getLine s s.currentPlayerIndex li)
      ∧ wallRowHasColor (wallOrdering.getD li []) (getWallRow s s.currentPlayerIndex li) color
          = false := by
  have hlen : ((patternLineSize li : Int) = (patternLineSize li : Int)
      - ((getLine s s.currentPlayerIndex li).length : Int))
      ↔ getLine s s.currentPlayerIndex li = [] := by
    constructor
    · intro h
      have h0 : (getLine s s.currentPlayerIndex li).length = 0 := by omega
      exact List.length_eq_zero.mp h0
    · intro h
      rw [h]
      simp
  unfold encureCanPlaceOnPatternLine
  dsimp only
  split_ifs with h1 h2
  · constructor
    · intro hcontra
      exact hcontra.elim
    · rintro ⟨ha, hb⟩
      exfalso
      rcases h1 with ⟨hne, hnotin⟩
      rcases ha with hnil | hin
      · exact hne (hlen.mpr hnil)
      · exact hnotin hin
  · constructor
    · intro hcontra
      exact hcontra.elim
    · rintro ⟨ha, hb⟩
      rw [h2] at hb
      exact Bool.noConfusion hb
  · constructor
    · intro _
      refine ⟨?_, by simpa using h2⟩
      rcases not_and_or.mp h1 with hni | hni
      · exact Or.inl (hlen.mp (not_not.mp hni))
      · exact Or.inr (not_not.mp hni)
    · intro _
      trivial

theorem pickedOf_all_color (s : GameState) (pi : Nat) (color : Color) :
    ∀ x ∈ pickedOf s pi color, x = color := by
  intro x hx
  have := List.of_mem_filter hx
  simpa using this

/-- The draft phase preserves the invariant. -/
theorem Inv_afterDraft (s : GameState) (pi li : Nat) (color : Color)
    (hs : Inv s) (hli : li < 5)
    (hmem : color ∈ pileOf s pi)
    (henc : encureCanPlaceOnPatternLine s li color = none) :
    Inv (afterDraft s pi li color) := by
  obtain ⟨hlineOK, hwallOK⟩ := (encure_none_iff s li color).mp henc
  have hpp : s.currentPlayerIndex < s.patternLines.length := by
    rw [hs.pl_len]; exact hs.cpi_lt
  have hff : s.currentPlayerIndex < s.floorLines.length := by
    rw [hs.fl_len]; exact hs.cpi_lt
  have hinner5 : (s.patternLines.getD s.currentPlayerIndex []).length = 5 :=
    hs.pl_inner _ (getD_mem _ _ _ hpp)
  have hi : li < (s.patternLines.getD s.currentPlayerIndex []).length := by
    rw [hinner5]; exact hli
  have hcap := hs.line_cap s.currentPlayerIndex li
  obtain ⟨hP, hF⟩ := placeTiles_main (pickedOf s pi color) s li hff hi hcap
  have hPL2 : (afterDraft s pi li color).patternLines
      = s.patternLines.set s.currentPlayerIndex
          ((s.patternLines.getD s.currentPlayerIndex []).set li
            (getLine s s.currentPlayerIndex li
              ++ (pickedOf s pi color).take
                  (patternLineSize li - (getLine s s.currentPlayerIndex li).length))) := by
    rw [afterDraft_patternLines, hP]
  have hFL2 : (afterDraft s pi li color).floorLines
      = s.floorLines.set s.currentPlayerIndex
          ((s.floorLines.getD s.currentPlayerIndex [])
            ++ (pickedOf s pi color).drop
                (patternLineSize li - (getLine s s.currentPlayerIndex li).length)) := by
    rw [afterDraft_floorLines, hF]
  have hnew_all : ∀ x ∈ getLine s s.currentPlayerIndex li
      ++ (pickedOf s pi color).take
          (patternLineSize li - (getLine s s.currentPlayerIndex li).length), x = color := by
    intro x hx
    rcases List.mem_append.mp hx with hold | hpick
    · rcases hlineOK with hnil | hin
      · rw [hnil] at hold
        exact absurd hold (List.not_mem_nil x)
      · exact hs.line_pure s.currentPlayerIndex li x hold color hin
    · exact pickedOf_all_color s pi color x (List.mem_of_mem_take hpick)
  have hget : ∀ p2 i2, getLine (afterDraft s pi li color) p2 i2
      = if p2 = s.currentPlayerIndex ∧ i2 = li
        then getLine s s.currentPlayerIndex li
          ++ (pickedOf s pi color).take
              (patternLineSize li - (getLine s s.currentPlayerIndex li).length)
        else getLine s p2 i2 := by
    intro p2 i2
    by_cases hp : p2 = s.currentPlayerIndex
    · subst hp
      by_cases hi2 : i2 = li
      · subst hi2
        rw [if_pos ⟨rfl, rfl⟩]
        unfold getLine
        rw [hPL2, getD_set_self _ _ _ _ hpp, getD_set_self _ _ _ _ hi]
        rfl
      · rw [if_neg (fun hc => hi2 hc.2)]
        unfold getLine
        rw [hPL2, getD_set_self _ _ _ _ hpp,
          getD_set_ne _ _ _ _ _ (fun he => hi2 he.symm)]
    · rw [if_neg (fun hc => hp hc.1)]
      unfold getLine
      rw [hPL2, getD_set_ne _ _ _ _ _ (fun he => hp he.symm)]
  have hwalls : (afterDraft s pi li color).walls = s.walls := afterDraft_walls s pi li color
  have hwrow : ∀ p i, getWallRow (afterDraft s pi li color) p i = getWallRow s p i := by
    intro p i
    unfold getWallRow
    rw [hwalls]
  constructor
  · rw [afterDraft_numberOfPlayers]; exact hs.np
  · rw [afterDraft_numberOfPlayers, afterDraft_currentPlayerIndex]; exact hs.cpi_lt
  · rw [afterDraft_numberOfPlayers, afterDraft_startingPlayer]; exact hs.sp_lt
  · rw [afterDraft_numberOfPlayers, hPL2, List.length_set]; exact hs.pl_len
  · intro pl hmem2
    rw [hPL2] at hmem2
    rcases List.mem_or_eq_of_mem_set hmem2 with hold | hnew
    · exact hs.pl_inner pl hold
    · rw [hnew, List.length_set]
      exact hinner5
  · rw [afterDraft_numberOfPlayers, hwalls]; exact hs.walls_len
  · rw [hwalls]; exact hs.walls_inner
  · rw [hwalls]; exact hs.walls_rows
  · rw [afterDraft_numberOfPlayers, hFL2, List.length_set]; exact hs.fl_len
  · intro p i
    rw [hget]
    split_ifs with hc
    · rw [List.length_append, List.length_take]
      have := hs.line_cap s.currentPlayerIndex li
      obtain ⟨hp, hi2⟩ := hc
      subst hi2
      omega
    · exact hs.line_cap p i
  · intro p i
    rw [hget]
    split_ifs with hc
    · intro x hx y hy
      rw [hnew_all x hx, hnew_all y hy]
    · exact hs.line_pure p i
  · intro p i
    rw [hget, hwrow]
    split_ifs with hc
    · intro x hx
      obtain ⟨hp, hi2⟩ := hc
      subst hp hi2
      rw [hnew_all x hx]
      exact hwallOK
    · exact hs.line_wall p i
  · intro c
    rw [tileCount_afterDraft c s pi li color hpp hff hi hcap hmem]
    exact hs.conserve c

/-- Out of `walls_inner`/`pl_inner`, the per-player walls and pattern
lines have matching lengths. -/
theorem walls_patternLines_getD_len (s : GameState)
    (hwlen : s.walls.length = s.patternLines.length)
    (hpi : ∀ pl ∈ s.patternLines, pl.length = 5)
    (hwi : ∀ w ∈ s.walls, w.length = 5) :
    ∀ p, (s.walls.getD p []).length = (s.patternLines.getD p []).length := by
  intro p
  by_cases hp : p < s.patternLines.length
  · rw [hwi _ (getD_mem _ _ _ (by omega)), hpi _ (getD_mem _ _ _ hp)]
  · rw [getD_out_of_range _ _ _ (by omega), getD_out_of_range _ _ _ hp]
    rfl

/-- Per-line effect of `moveTilesToWall` on pattern lines: complete
lines are emptied, incomplete lines are untouched. -/
theorem moveTilesToWall_getLine_char (s : GameState)
    (hwlen : s.walls.length = s.patternLines.length)
    (hpl_len : s.patternLines.length = s.numberOfPlayers)
    (hplen : ∀ p, (s.walls.getD p []).length = (s.patternLines.getD p []).length)
    (p i2 : Nat) :
    getLine (moveTilesToWall s) p i2
      = if (getLine s p i2).length = patternLineSize i2 then [] else getLine s p i2 := by
  show ((processPlayers s.numberOfPlayers s.patternLines s.walls s.discardPile).1.getD p
      []).getD i2 [] = _
  rw [processPlayers_fst_getD _ _ _ _ _ hwlen hpl_len,
    processLines_fst_getD _ _ _ _ _ (hplen p), Nat.zero_add]
  rfl

/-- Per-row effect of `moveTilesToWall` on walls: the row of a complete
line gets the cell of the line's last tile set, other rows are
untouched. -/
theorem moveTilesToWall_getWallRow_char (s : GameState)
    (hwlen : s.walls.length = s.patternLines.length)
    (hpl_len : s.patternLines.length = s.numberOfPlayers)
    (hplen : ∀ p, (s.walls.getD p []).length = (s.patternLines.getD p []).length)
    (p i2 : Nat) :
    getWallRow (moveTilesToWall s) p i2
      = if (getLine s p i2).length = patternLineSize i2
        then setTrueWhere (wallOrdering.getD i2 []) ((getLine s p i2).getLastD BLACK)
              (getWallRow s p i2)
        else getWallRow s p i2 := by
  show ((processPlayers s.numberOfPlayers s.patternLines s.walls s.discardPile).2.1.getD p
      []).getD i2 [] = _
  rw [processPlayers_snd_getD _ _ _ _ _ hwlen hpl_len,
    processLines_snd_getD _ _ _ _ _ (hplen p), Nat.zero_add]
  rfl

/-- The discard pile after `moveTilesToWall`: the old pile followed by
every complete line's tiles save the one that went to the wall. -/
theorem moveTilesToWall_discard_char (s : GameState)
    (hwlen : s.walls.length = s.patternLines.length)
    (hpl_len : s.patternLines.length = s.numberOfPlayers)
    (hpi : ∀ pl ∈ s.patternLines, pl.length = 5)
    (hwi : ∀ w ∈ s.walls, w.length = 5) :
    (moveTilesToWall s).discardPile = s.discardPile ++ playersDiscards s.patternLines := by
  show (processPlayers s.numberOfPlayers s.patternLines s.walls s.discardPile).2.2 = _
  exact processPlayers_discard _ _ _ _ hwlen hpl_len hpi hwi

/-- Wall-tiling preserves the invariant. -/
theorem Inv_moveTilesToWall (s : GameState) (hs : Inv s) : Inv (moveTilesToWall s) := by
  have hwlen : s.walls.length = s.patternLines.length := by
    rw [hs.walls_len, hs.pl_len]
  have hplen : ∀ p, (s.walls.getD p []).length = (s.patternLines.getD p []).length :=
    walls_patternLines_getD_len s hwlen hs.pl_inner hs.walls_inner
  have hfst : ∀ p i2, getLine (moveTilesToWall s) p i2
      = if (getLine s p i2).length = patternLineSize i2 then [] else getLine s p i2 :=
    moveTilesToWall_getLine_char s hwlen hs.pl_len hplen
  have hsnd : ∀ p i2, getWallRow (moveTilesToWall s) p i2
      = if (getLine s p i2).length = patternLineSize i2
        then setTrueWhere (wallOrdering.getD i2 []) ((getLine s p i2).getLastD BLACK)
              (getWallRow s p i2)
        else getWallRow s p i2 :=
    moveTilesToWall_getWallRow_char s hwlen hs.pl_len hplen
  have epl : (moveTilesToWall s).patternLines
      = (processPlayers s.numberOfPlayers s.patternLines s.walls s.discardPile).1 := rfl
  have ew : (moveTilesToWall s).walls
      = (processPlayers s.numberOfPlayers s.patternLines s.walls s.discardPile).2.1 := rfl
  have ed : (moveTilesToWall s).discardPile
      = (processPlayers s.numberOfPlayers s.patternLines s.walls s.discardPile).2.2 := rfl
  have hconserve : ∀ c, tileCount c (moveTilesToWall s) = tileCount c s := by
    intro c
    have hfree : ∀ p j, ((s.patternLines.getD p []).getD j []).length = patternLineSize j →
        wallRowHasColor (wallOrdering.getD j []) ((s.walls.getD p []).getD j [])
          (((s.patternLines.getD p []).getD j []).getLastD BLACK) = false := by
      intro p j hcomp
      have hne : (s.patternLines.getD p []).getD j [] ≠ [] := by
        intro hn
        rw [hn] at hcomp
        simp [patternLineSize] at hcomp
      have hxmem : ((s.patternLines.getD p []).getD j []).getLastD BLACK
          ∈ (s.patternLines.getD p []).getD j [] := by
        have hm := List.getLast_mem hne
        rw [getLast_eq_getLastD _ hne BLACK] at hm
        exact hm
      exact hs.line_wall p j _ hxmem
    have hmain := processPlayers_conserve c s.numberOfPlayers s.patternLines s.walls
      s.discardPile hwlen hs.pl_len hs.pl_inner hs.walls_inner hs.walls_rows
      (fun p j => hs.line_pure p j) hfree
    unfold tileCount
    rw [moveTilesToWall_bag, moveTilesToWall_center, moveTilesToWall_factories,
      moveTilesToWall_floorLines, epl, ew, ed]
    omega
  constructor
  · rw [moveTilesToWall_numberOfPlayers]; exact hs.np
  · rw [moveTilesToWall_numberOfPlayers, moveTilesToWall_currentPlayerIndex]; exact hs.cpi_lt
  · rw [moveTilesToWall_numberOfPlayers, moveTilesToWall_startingPlayer]; exact hs.sp_lt
  · rw [moveTilesToWall_numberOfPlayers, epl, processPlayers_fst_length]
    exact hs.pl_len
  · intro pl hmem2
    rw [epl] at hmem2
    obtain ⟨j, hj, hget⟩ := mem_getD_form [] hmem2
    rw [← hget, processPlayers_fst_getD _ _ _ _ _ hwlen hs.pl_len, processLines_fst_length]
    have hjlt : j < s.patternLines.length := by
      rw [processPlayers_fst_length] at hj
      exact hj
    exact hs.pl_inner _ (getD_mem _ _ _ hjlt)
  · rw [moveTilesToWall_numberOfPlayers, ew, processPlayers_snd_length]
    exact hs.walls_len
  · intro w hmem2
    rw [ew] at hmem2
    obtain ⟨j, hj, hget⟩ := mem_getD_form [] hmem2
    rw [← hget, processPlayers_snd_getD _ _ _ _ _ hwlen hs.pl_len, processLines_snd_length]
    have hjlt : j < s.walls.length := by
      rw [processPlayers_snd_length] at hj
      exact hj
    exact hs.walls_inner _ (getD_mem _ _ _ hjlt)
  · intro p j hj
    have hlen2 : ((moveTilesToWall s).walls.getD p []).length
        = (s.walls.getD p []).length := by
      rw [ew, processPlayers_snd_getD _ _ _ _ _ hwlen hs.pl_len, processLines_snd_length]
    have hj2 : j < (s.walls.getD p []).length := by rw [← hlen2]; exact hj
    have hthis := hsnd p j
    unfold getWallRow at hthis
    rw [hthis]
    split_ifs
    · rw [setTrueWhere_length]
      exact hs.walls_rows p j hj2
    · exact hs.walls_rows p j hj2
  · rw [moveTilesToWall_numberOfPlayers, moveTilesToWall_floorLines]; exact hs.fl_len
  · intro p i2
    rw [hfst]
    split_ifs
    · simp [patternLineSize]
    · exact hs.line_cap p i2
  · intro p i2
    rw [hfst]
    split_ifs
    · intro x hx
      exact absurd hx (List.not_mem_nil x)
    · exact hs.line_pure p i2
  · intro p i2
    rw [hfst]
    split_ifs with hcomp
    · intro x hx
      exact absurd hx (List.not_mem_nil x)
    · intro x hx
      rw [hsnd, if_neg hcomp]
      exact hs.line_wall p i2 x hx
  · exact fun c => (hconserve c).trans (hs.conserve c)

/-- A successful redeal preserves the invariant. -/
theorem Inv_repopulate (s s2 : GameState) (hs : Inv s)
    (h : repopulateFactories s = .ok s2) : Inv s2 := by
  obtain ⟨hc, hpl, hw, hfl, hd, hcpi, hn, hsp, hcount, hemp⟩ := repopulateFactories_ok s s2 h
  have hline : ∀ p i2, getLine s2 p i2 = getLine s p i2 := by
    intro p i2
    unfold getLine
    rw [hpl]
  have hrow : ∀ p i2, getWallRow s2 p i2 = getWallRow s p i2 := by
    intro p i2
    unfold getWallRow
    rw [hw]
  constructor
  · rw [hn]; exact hs.np
  · rw [hn, hcpi]; exact hs.cpi_lt
  · rw [hn, hsp]; exact hs.sp_lt
  · rw [hn, hpl]; exact hs.pl_len
  · rw [hpl]; exact hs.pl_inner
  · rw [hn, hw]; exact hs.walls_len
  · rw [hw]; exact hs.walls_inner
  · rw [hw]; exact hs.walls_rows
  · rw [hn, hfl]; exact hs.fl_len
  · intro p i2; rw [hline]; exact hs.line_cap p i2
  · intro p i2; rw [hline]; exact hs.line_pure p i2
  · intro p i2
    rw [hline, hrow]
    exact hs.line_wall p i2
  · intro c
    have h0 := hs.conserve c
    have hfe : sumCounts c s.factories = 0 :=
      sumCounts_nil_of_all_empty c s.factories ((allPilesAreEmpty_iff s).mp hemp).2
    unfold tileCount at h0 ⊢
    rw [hc, hpl, hw, hfl, hd]
    have := hcount c
    omega

/-- Changing only the current player (within range) preserves the
invariant. -/
theorem Inv_setCpi (s : GameState) (x : Nat) (hs : Inv s) (hx : x < s.numberOfPlayers) :
    Inv { s with currentPlayerIndex := x } := by
  constructor
  · exact hs.np
  · exact hx
  · exact hs.sp_lt
  · exact hs.pl_len
  · exact hs.pl_inner
  · exact hs.walls_len
  · exact hs.walls_inner
  · exact hs.walls_rows
  · exact hs.fl_len
  · exact fun p i2 => hs.line_cap p i2
  · exact fun p i2 => hs.line_pure p i2
  · exact fun p i2 => hs.line_wall p i2
  · exact fun c => hs.conserve c

theorem getD_replicate {α : Type} (n : Nat) (a d : α) (p : Nat) :
    (List.replicate n a).getD p d = if p < n then a else d := by
  induction n generalizing p with
  | zero => simp [List.getD]
  | succ n ih =>
    cases p with
    | zero => simp [List.replicate]
    | succ p =>
      simp only [List.replicate, List.getD_cons_succ, ih]
      by_cases hp : p < n <;> simp [hp, Nat.succ_lt_succ_iff]

theorem wallCount_blank : ∀ c : Color,
    wallCount c (List.replicate 5 (List.replicate 5 false)) = 0 := by
  decide

/-- A freshly created match satisfies the invariant. -/
theorem Inv_initial (bag : List Color) (n : Nat) (s : GameState)
    (hbag : ∀ c, bag.count c = 20) (hn : n = 2 ∨ n = 3 ∨ n = 4)
    (h : createMatch bag n = .ok s) : Inv s := by
  unfold createMatch at h
  obtain ⟨hc, hpl, hw, hfl, hd, hcpi, hnum, hsp, hcount, _⟩ := repopulateFactories_ok _ s h
  have hb : (newBoard bag n).patternLines = List.replicate n (List.replicate 5 []) := rfl
  have hbw : (newBoard bag n).walls
      = List.replicate n (List.replicate 5 (List.replicate 5 false)) := rfl
  have hline : ∀ p i2, getLine s p i2 = [] := by
    intro p i2
    unfold getLine
    rw [hpl, hb, getD_replicate]
    split_ifs
    · rw [getD_replicate]
      split_ifs <;> rfl
    · rfl
  constructor
  · rw [hnum]; exact hn
  · rw [hnum, hcpi]
    have h0 : (newBoard bag n).currentPlayerIndex = 0 := rfl
    have h1 : (newBoard bag n).numberOfPlayers = n := rfl
    rw [h0, h1]
    rcases hn with h | h | h <;> omega
  · rw [hnum, hsp]
    have h0 : (newBoard bag n).startingPlayer = 0 := rfl
    have h1 : (newBoard bag n).numberOfPlayers = n := rfl
    rw [h0, h1]
    rcases hn with h | h | h <;> omega
  · rw [hnum, hpl, hb, List.length_replicate]
    rfl
  · intro pl hmem2
    rw [hpl, hb] at hmem2
    rw [List.eq_of_mem_replicate hmem2, List.length_replicate]
  · rw [hnum, hw, hbw, List.length_replicate]
    rfl
  · intro w hmem2
    rw [hw, hbw] at hmem2
    rw [List.eq_of_mem_replicate hmem2, List.length_replicate]
  · intro p j hj
    rw [hw, hbw, getD_replicate]
    split_ifs with hp
    · rw [getD_replicate]
      split_ifs
      · rw [List.length_replicate]
      · rw [hw, hbw, getD_replicate, if_pos hp] at hj
        rw [List.length_replicate] at hj
        omega
    · rw [hw, hbw, getD_replicate, if_neg hp] at hj
      simp at hj
  · rw [hnum, hfl]
    show (newBoard bag n).floorLines.length = n
    rw [show (newBoard bag n).floorLines = List.replicate n [] from rfl, List.length_replicate]
  · intro p i2
    rw [hline]
    simp [patternLineSize]
  · intro p i2 x hx
    rw [hline] at hx
    exact absurd hx (List.not_mem_nil x)
  · intro p i2 x hx
    rw [hline] at hx
    exact absurd hx (List.not_mem_nil x)
  · intro c
    unfold tileCount
    rw [hc, hpl, hw, hfl, hd, hb, hbw]
    have h1 := hcount c
    have h2 : (newBoard bag n).bag.count c = 20 := hbag c
    have h3 : ((List.replicate n (List.replicate 5 ([] : List Color))).map
        (fun pl => sumCounts c pl)).sum = 0 := by
      rw [List.map_replicate, show sumCounts c (List.replicate 5 []) = 0 from rfl,
        List.sum_replicate, smul_zero]
    have h4 : ((List.replicate n (List.replicate 5 (List.replicate 5 false))).map
        (fun w => wallCount c w)).sum = 0 := by
      rw [List.map_replicate, wallCount_blank, List.sum_replicate, smul_zero]
    have h5 : sumCounts c (List.replicate n ([] : List Color)) = 0 := by
      rw [show (List.replicate n ([] : List Color)) = List.replicate n [] from rfl]
      exact sumCounts_nil_of_all_empty c _ (fun f hf => List.eq_of_mem_replicate hf)
    have hbc : (newBoard bag n).center = [] := rfl
    have hbd : (newBoard bag n).discardPile = [] := rfl
    have hbfl : (newBoard bag n).floorLines = List.replicate n [] := rfl
    rw [hbc, hbd, hbfl, h3, h4, h5]
    simp only [List.count_nil]
    omega

/-- Every reachable state satisfies the invariant. -/
theorem reachable_Inv (s : GameState) (h : Reachable s) : Inv s := by
  induction h with
  | init bag n s hbag hn hcreate => exact Inv_initial bag n s hbag hn hcreate
  | step s s' pi li color _ hli hpick ih =>
    obtain ⟨hmem, henc, hcase⟩ := pickTiles_ok_cases s s' pi li color hpick
    have h2 := Inv_afterDraft s pi li color ih hli hmem henc
    have hn0 : 0 < (afterDraft s pi li color).numberOfPlayers := by
      rcases h2.np with h | h | h <;> omega
    rcases hcase with ⟨_, hs'⟩ | ⟨_, _, s4, hrep, hs'⟩
    · rw [hs']
      exact Inv_setCpi _ _ h2 (Nat.mod_lt _ hn0)
    · have h3 := Inv_moveTilesToWall _ h2
      have h4 := Inv_repopulate _ s4 h3 hrep
      rw [hs']
      exact Inv_setCpi _ _ h4 h4.sp_lt

/-! ### Helpers for the claim theorems -/

theorem rows5_getD (walls : List (List (List Bool)))
    (hw : ∀ w ∈ walls, ∀ r ∈ w, r.length = 5) :
    ∀ p j, j < (walls.getD p []).length → ((walls.getD p []).getD j []).length = 5 := by
  intro p j hj
  by_cases hp : p < walls.length
  · exact hw _ (getD_mem _ _ _ hp) _ (getD_mem _ _ _ hj)
  · rw [getD_out_of_range _ _ _ hp] at hj
    simp at hj

theorem repopulateFactories_error_kinds (s s' : GameState) (e : AzulError)
    (h : repopulateFactories s = .error (e, s')) :
    e = .RepopulateNotEmpty ∨ e = .InvalidPlayerCount := by
  unfold repopulateFactories at h
  by_cases hemp : allPilesAreEmpty s = true
  · rw [if_neg (by simpa using hemp)] at h
    by_cases h2 : s.numberOfPlayers = 2
    · rw [if_pos h2] at h
      exact Except.noConfusion h
    · rw [if_neg h2] at h
      by_cases h3 : s.numberOfPlayers = 3
      · rw [if_pos h3] at h
        exact Except.noConfusion h
      · rw [if_neg h3] at h
        by_cases h4 : s.numberOfPlayers = 4
        · rw [if_pos h4] at h
          exact Except.noConfusion h
        · rw [if_neg h4] at h
          injection h with h
          exact Or.inr (Prod.mk.injEq .. ▸ h).1.symm
  · rw [if_pos (by simpa using hemp)] at h
    injection h with h
    exact Or.inl (Prod.mk.injEq .. ▸ h).1.symm

theorem set_nil_getD {α : Type} (l : List (List α)) (i : Nat) :
    (l.set i []).getD i [] = [] := by
  by_cases h : i < l.length
  · exact getD_set_self _ _ _ _ h
  · rw [getD_out_of_range]
    rw [List.length_set]
    exact h

/-- The floor lines survive every phase of a successful move unchanged
except for the current player's appended overflow. -/
theorem pickTiles_floorLines (s s' : GameState) (pi li : Nat) (color : Color)
    (h : pickTiles s pi li color = .ok s') :
    s'.floorLines = (placeTiles s s.currentPlayerIndex li (pickedOf s pi color)).floorLines := by
  obtain ⟨_, _, hcase⟩ := pickTiles_ok_cases s s' pi li color h
  rcases hcase with ⟨_, hs'⟩ | ⟨_, _, s4, hrep, hs'⟩
  · rw [hs']
    show (afterDraft s pi li color).floorLines = _
    exact afterDraft_floorLines s pi li color
  · obtain ⟨_, _, _, hfl, _, _, _, _, _, _⟩ := repopulateFactories_ok _ s4 hrep
    rw [hs']
    show s4.floorLines = _
    rw [hfl, moveTilesToWall_floorLines]
    exact afterDraft_floorLines s pi li color

/-! ### The claims -/

/-- Claim C1: every state reachable from a freshly created match by any
sequence of successful moves (including round boundaries and
wall-tiling) holds exactly 20 tiles of each of the 5 colors across bag,
center, factories, pattern lines, floor lines, discard pile and placed
wall cells (each true wall cell counted with its `wallOrdering` color). -/
theorem c1_tile_conservation (s : GameState) (h : Reachable s) :
    ∀ c, tileCount c s = 20 :=
  (reachable_Inv s h).conserve

/-- Witness for C1 at a concrete freshly created 2-player match. -/
theorem c1_tile_conservation_witness :
    tileCount Color.RED ((createMatch orderedBag 2).toOption.getD default) = 20 :=
  c1_tile_conservation _
    (Reachable.init orderedBag 2 _ (by decide) (Or.inl rfl) (by rfl)) Color.RED

/-- Claim C2: a move that fails with an input error (MalformedToken,
InvalidSource, InvalidColor, InvalidLine) or a rule-violation error
(ColorNotInPile, LineColorConflict, WallAlreadyHasColor) leaves the
game state completely unchanged. -/
theorem c2_errors_leave_state (s : GameState) (tok : String) (e : AzulError) (s' : GameState)
    (h : doMove s tok = .error (e, s'))
    (he : e = .MalformedToken ∨ e = .InvalidSource ∨ e = .InvalidColor ∨ e = .InvalidLine
      ∨ e = .ColorNotInPile ∨ e = .LineColorConflict ∨ e = .WallAlreadyHasColor) :
    s' = s := by
  unfold doMove at h
  cases hp : parseMove tok with
  | error e2 =>
    rw [hp] at h
    injection h with h
    exact (Prod.mk.injEq .. ▸ h).2.symm
  | ok m =>
    rw [hp] at h
    rcases pickTiles_error_cases s s' m.fromPile m.toLine m.color e h with
      ⟨_, hss⟩ | ⟨_, hss⟩ | ⟨hee, _⟩ | hrep
    · exact hss
    · exact hss
    · subst hee
      rcases he with h1 | h1 | h1 | h1 | h1 | h1 | h1 <;> exact AzulError.noConfusion h1
    · rcases repopulateFactories_error_kinds _ _ _ hrep with hee | hee <;>
        subst hee <;>
        rcases he with h1 | h1 | h1 | h1 | h1 | h1 | h1 <;> exact AzulError.noConfusion h1

/-- Witness for C2: a `ColorNotInPile` failure on `sW` returns `sW`. -/
theorem c2_errors_leave_state_witness : sW = sW :=
  c2_errors_leave_state sW "0_AQUA_3" .ColorNotInPile sW (by decide) (by decide)

/-- Claim C3 (code gap): at `sC3` the move `0_AQUA_0` empties the
center and all factories, and the post-tiling state has a full wall
row, so the end condition holds — yet `pickTiles` raises the
`GameEndingNotImplemented` error (the source's `end()` does
`throw new Error('Game ending not implemented.')`) instead of reaching
a finished terminal state. -/
theorem c3_end_condition_throws :
    allPilesAreEmpty (afterDraft sC3 0 0 Color.AQUA) = true
    ∧ shouldEnd (moveTilesToWall (afterDraft sC3 0 0 Color.AQUA)) = true
    ∧ pickTiles sC3 0 0 Color.AQUA
      = .error (.GameEndingNotImplemented, moveTilesToWall (afterDraft sC3 0 0 Color.AQUA)) := by
  refine ⟨?_, ?_, ?_⟩ <;> decide

/-- Claim C4 (code gap): with every pile empty and only three tiles in
the bag — fewer than the 4 × 5 a 2-player redeal needs —
`repopulateFactories` succeeds and silently deals one short factory
and four empty ones; no `BagExhausted` failure exists in the code. -/
theorem c4_short_bag_deals_silently :
    repopulateFactories sC4
      = .ok { sC4 with factories := [[Color.RED, Color.RED, Color.RED], [], [], [], []],
                       bag := [] } := by
  decide

/-- Claim C5 (code gap): `parseMove` accepts any source in `[0, 9]`
regardless of the number of factories, so `7_RED_3` parses successfully
in a 2-player game with 5 factories instead of failing with
`InvalidSource`; only values above 9 are rejected. -/
theorem c5_source_seven_parses :
    parseMove "7_RED_3" = .ok { fromPile := 7, color := Color.RED, toLine := 3 }
    ∧ parseMove "10_RED_3" = .error .InvalidSource := by
  constructor <;> decide

/-- Claim C6: a legal draft of `k` picked tiles into line `li` with
`f = capacity − length` free spaces appends exactly `min f k` tiles to
the pattern line and the remaining `k − f` tiles to the current
player's floor line (which has no cap), and the floor-line extension
survives to the final state of the move. -/
theorem c6_placement_split (s : GameState) (pi li : Nat) (color : Color) (s' : GameState)
    (hff : s.currentPlayerIndex < s.floorLines.length)
    (hi : li < (s.patternLines.getD s.currentPlayerIndex []).length)
    (hcap : (getLine s s.currentPlayerIndex li).length ≤ patternLineSize li)
    (h : pickTiles s pi li color = .ok s') :
    getLine (placeTiles s s.currentPlayerIndex li (pickedOf s pi color)) s.currentPlayerIndex li
      = getLine s s.currentPlayerIndex li
        ++ (pickedOf s pi color).take
            (patternLineSize li - (getLine s s.currentPlayerIndex li).length)
    ∧ ((pickedOf s pi color).take
        (patternLineSize li - (getLine s s.currentPlayerIndex li).length)).length
      = min (patternLineSize li - (getLine s s.currentPlayerIndex li).length)
          (pickedOf s pi color).length
    ∧ s'.floorLines.getD s.currentPlayerIndex []
      = s.floorLines.getD s.currentPlayerIndex []
        ++ (pickedOf s pi color).drop
            (patternLineSize li - (getLine s s.currentPlayerIndex li).length)
    ∧ ((pickedOf s pi color).drop
        (patternLineSize li - (getLine s s.currentPlayerIndex li).length)).length
      = (pickedOf s pi color).length
        - (patternLineSize li - (getLine s s.currentPlayerIndex li).length) := by
  have hpp : s.currentPlayerIndex < s.patternLines.length := by
    by_contra h0
    rw [getD_out_of_range _ _ _ h0] at hi
    simp at hi
  obtain ⟨hP, hF⟩ := placeTiles_main (pickedOf s pi color) s li hff hi hcap
  have hfl := pickTiles_floorLines s s' pi li color h
  refine ⟨?_, List.length_take .., ?_, List.length_drop ..⟩
  · unfold getLine
    rw [hP, getD_set_self _ _ _ _ hpp, getD_set_self _ _ _ _ hi]
    rfl
  · rw [hfl, hF, getD_set_self _ _ _ _ hff]

/-- Witness for C6: drafting the two blacks of factory 1 onto line 0 of
`sW` sends the overflow black to the floor line. -/
theorem c6_placement_split_witness :
    sWafter.floorLines.getD sW.currentPlayerIndex []
      = sW.floorLines.getD sW.currentPlayerIndex []
        ++ (pickedOf sW 1 Color.BLACK).drop
            (patternLineSize 0 - (getLine sW sW.currentPlayerIndex 0).length) :=
  (c6_placement_split sW 1 0 Color.BLACK sWafter (by decide) (by decide) (by decide)
    (by decide)).2.2.1

/-- Claim C7 counterexample: on `sC7` the legal factory draft `1_RED_0`
succeeds, but because it empties every pile the factories are redealt
from the bag, and the source factory ends the move holding four fresh
tiles instead of being empty — refuting the claim as stated for
round-boundary moves. -/
theorem c7_counterexample :
    pickTiles sC7 1 0 Color.RED = .ok sC7after
    ∧ sC7after.factories.getD 0 [] = [Color.BLUE, Color.BLUE, Color.BLUE, Color.BLUE] := by
  constructor <;> decide

/-- Claim C7 (amended): for every legal draft move after which the
center and the factories are not all empty — no round boundary — the
claimed pile update holds exactly: a factory source is emptied and its
remainder appended to the center with all other factories unchanged,
and a center source leaves the center holding exactly the remainder
with the factories unchanged. -/
theorem c7_pile_update (s : GameState) (pi li : Nat) (color : Color) (s' : GameState)
    (h : pickTiles s pi li color = .ok s')
    (hnb : allPilesAreEmpty (afterDraft s pi li color) = false) :
    (pi ≠ 0 → s'.factories.getD (pi - 1) [] = []
      ∧ s'.center = s.center ++ remainderOf s pi color
      ∧ ∀ j, j ≠ pi - 1 → s'.factories.getD j [] = s.factories.getD j [])
    ∧ (pi = 0 → s'.center = remainderOf s 0 color ∧ s'.factories = s.factories) := by
  obtain ⟨_, _, hcase⟩ := pickTiles_ok_cases s s' pi li color h
  rcases hcase with ⟨_, hs'⟩ | ⟨hemp, _, _⟩
  · subst hs'
    constructor
    · intro hpi
      refine ⟨?_, ?_, ?_⟩
      · show (afterDraft s pi li color).factories.getD (pi - 1) [] = []
        rw [afterDraft_factories_pos s pi li color hpi]
        exact set_nil_getD _ _
      · show (afterDraft s pi li color).center = _
        exact afterDraft_center_pos s pi li color hpi
      · intro j hj
        show (afterDraft s pi li color).factories.getD j [] = _
        rw [afterDraft_factories_pos s pi li color hpi]
        exact getD_set_ne _ _ _ _ _ (fun he => hj he.symm)
    · intro hpi
      subst hpi
      exact ⟨afterDraft_center_zero s li color, afterDraft_factories_zero s li color⟩
  · rw [hemp] at hnb
    exact Bool.noConfusion hnb

/-- Witness for the amended C7 at the non-boundary move `1_BLACK_0` on
`sW`. -/
theorem c7_pile_update_witness :
    sWafter.factories.getD 0 [] = []
    ∧ sWafter.center = sW.center ++ remainderOf sW 1 Color.BLACK :=
  ⟨((c7_pile_update sW 1 0 Color.BLACK sWafter (by decide) (by decide)).1 (by decide)).1,
   ((c7_pile_update sW 1 0 Color.BLACK sWafter (by decide) (by decide)).1 (by decide)).2.1⟩

/-- Claim C8: wall-tiling empties every complete pattern line, sets the
one wall cell of that line's row whose `wallOrdering` color is the
line's color (one newly-true cell), appends every complete line's
remaining `k − 1` tiles to the shared discard pile, and leaves every
incomplete line untouched. -/
theorem c8_wall_tiling (s : GameState) (p i : Nat) (c : Color)
    (hpl_len : s.patternLines.length = s.numberOfPlayers)
    (hpl_inner : ∀ pl ∈ s.patternLines, pl.length = 5)
    (hwalls_len : s.walls.length = s.numberOfPlayers)
    (hwalls_inner : ∀ w ∈ s.walls, w.length = 5)
    (hwalls_rows : ∀ w ∈ s.walls, ∀ r ∈ w, r.length = 5)
    (hlen : (getLine s p i).length = patternLineSize i)
    (hcol : ∀ x ∈ getLine s p i, x = c)
    (hfree : wallRowHasColor (wallOrdering.getD i []) (getWallRow s p i) c = false) :
    getLine (moveTilesToWall s) p i = []
    ∧ (∀ q j, (getLine s q j).length ≠ patternLineSize j →
        getLine (moveTilesToWall s) q j = getLine s q j)
    ∧ (∀ col, col < 5 →
        (getWallRow (moveTilesToWall s) p i).getD col false
          = ((getWallRow s p i).getD col false
              || decide ((wallOrdering.getD i []).getD col BLACK = c)))
    ∧ (getWallRow (moveTilesToWall s) p i).count true
        = (getWallRow s p i).count true + 1
    ∧ (moveTilesToWall s).discardPile = s.discardPile ++ playersDiscards s.patternLines
    ∧ ((getLine s p i).dropLast).length = i := by
  have hwlen : s.walls.length = s.patternLines.length := by rw [hwalls_len, hpl_len]
  have hplen := walls_patternLines_getD_len s hwlen hpl_inner hwalls_inner
  have hfst := moveTilesToWall_getLine_char s hwlen hpl_len hplen
  have hsnd := moveTilesToWall_getWallRow_char s hwlen hpl_len hplen
  have hne : getLine s p i ≠ [] := by
    intro hn
    rw [hn] at hlen
    simp [patternLineSize] at hlen
  have hlast : (getLine s p i).getLastD BLACK = c := by
    have hm := List.getLast_mem hne
    rw [getLast_eq_getLastD _ hne BLACK] at hm
    exact hcol _ hm
  have hpp : p < s.patternLines.length := by
    by_contra h0
    apply hne
    unfold getLine
    rw [getD_out_of_range _ _ _ h0]
    rfl
  have hinner5 : (s.patternLines.getD p []).length = 5 :=
    hpl_inner _ (getD_mem _ _ _ hpp)
  have hi5 : i < 5 := by
    by_contra h0
    apply hne
    unfold getLine
    rw [getD_out_of_range]
    rw [hinner5]
    omega
  have hrowlen : (getWallRow s p i).length = 5 := by
    have hpw : p < s.walls.length := by rw [hwlen]; exact hpp
    have hw5 : (s.walls.getD p []).length = 5 := hwalls_inner _ (getD_mem _ _ _ hpw)
    exact hwalls_rows _ (getD_mem _ _ _ hpw) _ (getD_mem _ _ _ (by rw [hw5]; exact hi5))
  have hordlen : (wallOrdering.getD i []).length = 5 := wallOrdering_getD_length i hi5
  refine ⟨?_, ?_, ?_, ?_, ?_, ?_⟩
  · rw [hfst p i, if_pos hlen]
  · intro q j hq
    rw [hfst q j, if_neg hq]
  · intro col hcol5
    rw [hsnd p i, if_pos hlen, hlast]
    exact setTrueWhere_getD c _ _ col (by rw [hordlen]; exact hcol5)
      (by rw [hrowlen]; exact hcol5)
  · rw [hsnd p i, if_pos hlen, hlast, count_true_setTrueWhere,
      newTruePos_of_not_hasColor _ _ _ hfree (by rw [hordlen, hrowlen]),
      wallOrdering_getD_count i hi5]
  · exact moveTilesToWall_discard_char s hwlen hpl_len hpl_inner hwalls_inner
  · rw [List.length_dropLast, hlen]
    rfl

/-- Witness for C8 at `sC8`, whose line 1 is complete with two blues. -/
theorem c8_wall_tiling_witness :
    getLine (moveTilesToWall sC8) 0 1 = []
    ∧ (moveTilesToWall sC8).discardPile = sC8.discardPile ++ playersDiscards sC8.patternLines
    ∧ (getWallRow (moveTilesToWall sC8) 0 1).count true
        = (getWallRow sC8 0 1).count true + 1 :=
  ⟨(c8_wall_tiling sC8 0 1 Color.BLUE (by decide) (by decide) (by decide) (by decide)
      (by decide) (by decide) (by decide) (by decide)).1,
   (c8_wall_tiling sC8 0 1 Color.BLUE (by decide) (by decide) (by decide) (by decide)
      (by decide) (by decide) (by decide) (by decide)).2.2.2.2.1,
   (c8_wall_tiling sC8 0 1 Color.BLUE (by decide) (by decide) (by decide) (by decide)
      (by decide) (by decide) (by decide) (by decide)).2.2.2.1⟩

/-- Claim C9: after a successful move that does not leave the center
and all factories empty, the turn passes to
`(currentPlayerIndex + 1) % numberOfPlayers`; after a successful move
that does empty them all (a round boundary that is not game end), the
turn returns to `startingPlayer`. -/
theorem c9_turn_rotation (s : GameState) (pi li : Nat) (color : Color) (s' : GameState)
    (h : pickTiles s pi li color = .ok s') :
    (allPilesAreEmpty (afterDraft s pi li color) = false →
      s'.currentPlayerIndex = (s.currentPlayerIndex + 1) % s.numberOfPlayers)
    ∧ (allPilesAreEmpty (afterDraft s pi li color) = true →
      s'.currentPlayerIndex = s.startingPlayer) := by
  obtain ⟨_, _, hcase⟩ := pickTiles_ok_cases s s' pi li color h
  rcases hcase with ⟨hnb, hs'⟩ | ⟨hemp, _, s4, hrep, hs'⟩
  · constructor
    · intro _
      rw [hs']
      show ((afterDraft s pi li color).currentPlayerIndex + 1)
          % (afterDraft s pi li color).numberOfPlayers = _
      rw [afterDraft_currentPlayerIndex, afterDraft_numberOfPlayers]
    · intro hemp
      rw [hnb] at hemp
      exact Bool.noConfusion hemp
  · constructor
    · intro hnb
      rw [hemp] at hnb
      exact Bool.noConfusion hnb
    · intro _
      rw [hs']
      show s4.startingPlayer = s.startingPlayer
      obtain ⟨_, _, _, _, _, _, _, hsp, _, _⟩ := repopulateFactories_ok _ s4 hrep
      rw [hsp, moveTilesToWall_startingPlayer, afterDraft_startingPlayer]

/-- Witness for C9 at the non-boundary move `1_BLACK_0` on `sW`. -/
theorem c9_turn_rotation_witness :
    sWafter.currentPlayerIndex = (sW.currentPlayerIndex + 1) % sW.numberOfPlayers :=
  (c9_turn_rotation sW 1 0 Color.BLACK sWafter (by decide)).1 (by decide)

/-- Claim C10: wall-tiling returns the floor lines exactly unchanged,
and a successful move only ever appends to the current player's floor
line, leaving every other floor line untouched — floor tiles are never
moved to the discard pile or removed, so they persist across round
boundaries. -/
theorem c10_floor_persistence (s : GameState) (pi li : Nat) (color : Color) (s' : GameState)
    (hff : s.currentPlayerIndex < s.floorLines.length)
    (hi : li < (s.patternLines.getD s.currentPlayerIndex []).length)
    (hcap : (getLine s s.currentPlayerIndex li).length ≤ patternLineSize li)
    (h : pickTiles s pi li color = .ok s') :
    (moveTilesToWall s).floorLines = s.floorLines
    ∧ s'.floorLines.getD s.currentPlayerIndex []
      = s.floorLines.getD s.currentPlayerIndex []
        ++ (pickedOf s pi color).drop
            (patternLineSize li - (getLine s s.currentPlayerIndex li).length)
    ∧ ∀ q, q ≠ s.currentPlayerIndex → s'.floorLines.getD q [] = s.floorLines.getD q [] := by
  obtain ⟨hP, hF⟩ := placeTiles_main (pickedOf s pi color) s li hff hi hcap
  have hfl := pickTiles_floorLines s s' pi li color h
  refine ⟨moveTilesToWall_floorLines s, ?_, ?_⟩
  · rw [hfl, hF, getD_set_self _ _ _ _ hff]
  · intro q hq
    rw [hfl, hF, getD_set_ne _ _ _ _ _ (fun he => hq he.symm)]

/-- Witness for C10 at the move `1_BLACK_0` on `sW`: wall-tiling keeps
the floors, and player 1's floor line is untouched by player 0's move. -/
theorem c10_floor_persistence_witness :
    (moveTilesToWall sW).floorLines = sW.floorLines
    ∧ sWafter.floorLines.getD 1 [] = sW.floorLines.getD 1 [] :=
  ⟨(c10_floor_persistence sW 1 0 Color.BLACK sWafter (by decide) (by decide) (by decide)
      (by decide)).1,
   (c10_floor_persistence sW 1 0 Color.BLACK sWafter (by decide) (by decide) (by decide)
      (by decide)).2.2 1 (by decide)⟩

end Azul
